import Mathlib

/-!
libMCell: release, diffusion and trajectory files

A shallow embedding of `src/libMCell/libMCell.cpp` (class `MCellSimulation`).

* C++ objects reached through pointers (`MCellMoleculeSpecies *`) live in an
  object store `Nat → MCellMoleculeSpecies R`; a pointer is the address `Nat`.
* The linked list `instance_list` / `next` is a `List`, head first.
* `double` arithmetic, the `(float)` conversion, the random number
  generator of `rng.h` and whether `fopen` opens a file are parameters,
  collected in `Platform`.
* `none` is a run without defined behaviour: `strlen` of NULL, an `int`
  that overflows, a write to the stream NULL.
* A file is the list of bytes `fwrite` appended to it.
-/

namespace LibMCell

/-! ## Bytes and machine integers -/

/-- One byte (`unsigned char`) of a file or of a `std::string`. -/
abbrev Byte := Fin 256

/-- The low eight bits of a number: `0x0ff & n`. -/
def toByte (n : Nat) : Byte := ⟨n % 256, Nat.mod_lt n (by decide)⟩

/-- The four bytes of a 32-bit pattern as `fwrite` stores them (little-endian). -/
def le32 (n : Nat) : List Byte :=
  [toByte n, toByte (n / 256), toByte (n / 65536), toByte (n / 16777216)]

/-- Conversion of a mathematical integer to `int` (32-bit two's complement wrap). -/
def wrap_int32 (v : Int) : Int := (v + 2147483648) % 4294967296 - 2147483648

/-- The bytes `fwrite ( &v, sizeof(int), 1, f )` appends for an `int` holding `v`. -/
def int32_bytes (v : Int) : List Byte := le32 (v % 4294967296).toNat

/-- A C string (`char *` that is not NULL), as its characters. -/
abbrev CString := List Char

/-! ## The platform: double arithmetic, the random number source, the files -/

/-- What the C++ code takes from the machine and from `rng.h`:
`R` is the type of `double` values and `G` the state of a
`MCellRandomNumber_mrng` object. -/
structure Platform (R G : Type) where
  /-- The `double` denoted by the decimal literal `m × 10^e`. -/
  lit : Nat → Int → R
  /-- Addition of doubles, `a + b`. -/
  add : R → R → R
  /-- Multiplication of doubles, `a * b`. -/
  mul : R → R → R
  /-- The library function `sqrt`. -/
  sqrt : R → R
  /-- The 32-bit pattern of `(float) a`. -/
  to_float : R → Nat
  /-- The constructor `MCellRandomNumber_mrng ( seed )`. -/
  mrng : Nat → G
  /-- One call of `rng_gauss()`: the value returned and the generator afterwards. -/
  rng_gauss : G → R × G
  /-- Whether `fopen ( name, "w" )` of line 137 returns a stream and not NULL,
  in the file system as the `mkdir` calls of lines 74-80 leave it; the code
  looks at the result of none of these calls. -/
  fopen : CString → Bool

/-- The bytes `fwrite ( &float_val, sizeof(float), 1, f )` appends after
`float_val = a`. -/
def float_bytes {R G : Type} (P : Platform R G) (a : R) : List Byte :=
  le32 (P.to_float a % 4294967296)

/-! ## The data model (libMCell.h) -/

/-- Modelled from the spec: the class `MCellMoleculeInstance` is declared in
`libMCell.h`, which is not among the sources; the fields are those
`run_simulation` uses. The `next` pointer is the tail of the list holding it. -/
structure MCellMoleculeInstance (R : Type) where
  /-- The species the molecule belongs to (a pointer). -/
  molecule_species : Nat
  x : R
  y : R
  z : R
deriving DecidableEq

/-- Modelled from the spec: the class `MCellMoleculeSpecies` is declared in
`libMCell.h`, which is not among the sources; the fields are those
`run_simulation` uses, with the count a natural number as the
spec's data model has it. -/
structure MCellMoleculeSpecies (R : Type) where
  /-- The `std::string name`, as its bytes. -/
  name : List Byte
  type_code : Int
  diffusion_constant : R
  num_instances : Nat
  /-- The linked list of instances, first element first. -/
  instance_list : List (MCellMoleculeInstance R)
deriving DecidableEq

/-- Modelled from the spec: the class `MCellReleaseSite` is declared in
`libMCell.h`, which is not among the sources; the quantity is the
non-negative integer of the spec's data model. -/
structure MCellReleaseSite (R : Type) where
  x : R
  y : R
  z : R
  /-- The species released (a pointer). -/
  molecule_species : Nat
  quantity : Nat
deriving DecidableEq

/-- The object store: the species object at every address. -/
abbrev Objects (R : Type) := Nat → MCellMoleculeSpecies R

/-! ## The release loop (lines 88-105) -/

/-- The body of the inner loop, lines 96-103: a new instance at the site's
point becomes the head of the species' list and the count goes up by one. -/
def release_molecule {R : Type} (this_site : MCellReleaseSite R) (objs : Objects R) :
    Objects R :=
  let sp := objs this_site.molecule_species
  let new_mol_instance : MCellMoleculeInstance R :=
    { molecule_species := this_site.molecule_species
      x := this_site.x
      y := this_site.y
      z := this_site.z }
  Function.update objs this_site.molecule_species
    { sp with
      instance_list := new_mol_instance :: sp.instance_list
      num_instances := sp.num_instances + 1 }

/-- The inner loop `for (int i=0; i<this_site->quantity; i++)`, by the number
of rounds still to run. -/
def release_site {R : Type} (this_site : MCellReleaseSite R) : Nat → Objects R → Objects R
  | 0, objs => objs
  | n + 1, objs => release_site this_site n (release_molecule this_site objs)

/-- The outer loop over `molecule_release_sites`, lines 90-105. -/
def release_loop {R : Type} : List (MCellReleaseSite R) → Objects R → Objects R
  | [], objs => objs
  | this_site :: rest, objs =>
    release_loop rest (release_site this_site this_site.quantity objs)

/-! ## The species registry (StorageClasses.h) -/

/-- The C string a `std::string` hands out with `c_str()`: its bytes up to
the first NUL. -/
def c_str (s : List Byte) : List Byte := s.takeWhile (fun b => b ≠ 0)

/-- Modelled from the spec: reading `m[key]` in the entries of a `MapStore`
(`StorageClasses.h` is not among the sources): the value of the first entry
with that key, `none` (a NULL pointer) when there is none. -/
def assoc_get {V : Type} : List (List Byte × V) → List Byte → Option V
  | [], _ => none
  | (k, v) :: rest, key => if k = key then some v else assoc_get rest key

/-- Modelled from the spec: assigning `m[key] = v` in the entries of a
`MapStore` (`StorageClasses.h` is not among the sources): the entry with that
key gets the value, and a key not yet present is added at the end. -/
def assoc_set {V : Type} : List (List Byte × V) → List Byte → V → List (List Byte × V)
  | [], key, v => [(key, v)]
  | (k, w) :: rest, key, v =>
    if k = key then (k, v) :: rest else (k, w) :: assoc_set rest key v

/-- Modelled from the spec: the template `MapStore` is declared in
`StorageClasses.h`, which is not among the sources. It maps C-string keys to
values, holds a key once, and enumerates its keys in insertion order
(`get_num_items`, `get_key`), as the spec's registry does. -/
structure MapStore (V : Type) where
  entries : List (List Byte × V)
  keys_nodup : (entries.map Prod.fst).Nodup

/-- Modelled from the spec: a `MapStore` just constructed, with no key. -/
def MapStore.empty {V : Type} : MapStore V := ⟨[], List.nodup_nil⟩

/-- Modelled from the spec: `MapStore::get_num_items`, the number of keys. -/
def MapStore.get_num_items {V : Type} (m : MapStore V) : Nat := m.entries.length

/-- Modelled from the spec: `MapStore::get_key`, the key at an index. -/
def MapStore.get_key {V : Type} (m : MapStore V) (i : Nat) : Option (List Byte) :=
  (m.entries.get? i).map Prod.fst

/-- Modelled from the spec: `MapStore::operator[]` read. -/
def MapStore.get {V : Type} (m : MapStore V) (key : List Byte) : Option V :=
  assoc_get m.entries key

/-- Modelled from the spec: `MapStore::operator[]` assigned to. -/
def MapStore.set {V : Type} (m : MapStore V) (key : List Byte) (v : V) : MapStore V where
  entries := assoc_set m.entries key v
  keys_nodup := by
    have hmem : ∀ (es : List (List Byte × V)) (k : List Byte),
        k ∈ (assoc_set es key v).map Prod.fst → k ∈ es.map Prod.fst ∨ k = key := by
      intro es
      induction es with
      | nil => intro k hk; simpa [assoc_set] using hk
      | cons e rest ih =>
        intro k hk
        by_cases he : e.1 = key
        · simp only [assoc_set, if_pos he, List.map_cons, List.mem_cons] at hk
          simp only [List.map_cons, List.mem_cons]
          rcases hk with hk | hk
          · exact Or.inl (Or.inl hk)
          · exact Or.inl (Or.inr hk)
        · simp only [assoc_set, if_neg he, List.map_cons, List.mem_cons] at hk
          simp only [List.map_cons, List.mem_cons]
          rcases hk with hk | hk
          · exact Or.inl (Or.inl hk)
          · rcases ih k hk with h | h
            · exact Or.inl (Or.inr h)
            · exact Or.inr h
    have hnd : ∀ es : List (List Byte × V), (es.map Prod.fst).Nodup →
        ((assoc_set es key v).map Prod.fst).Nodup := by
      intro es
      induction es with
      | nil => intro _; simp [assoc_set]
      | cons e rest ih =>
        intro h
        rw [List.map_cons, List.nodup_cons] at h
        by_cases he : e.1 = key
        · simp only [assoc_set, if_pos he, List.map_cons, List.nodup_cons]
          exact h
        · simp only [assoc_set, if_neg he, List.map_cons, List.nodup_cons]
          refine ⟨fun hk => ?_, ih h.2⟩
          rcases hmem rest e.1 hk with h' | h'
          · exact h.1 h'
          · exact he h'
    exact hnd m.entries m.keys_nodup

/-- Modelled from the spec: the class `MCellSimulation` is declared in
`libMCell.h`, which is not among the sources. These are the members
`libMCell.cpp` uses, together with the object store its pointers point into;
the iteration count is the spec's `N`, not negative, held in an `int`
(`ndigits` has the bound). -/
structure MCellSimulation (R : Type) where
  objects : Objects R
  /-- The registry: species name to species pointer. -/
  molecule_species : MapStore Nat
  /-- The `ArrayStore` of release sites, in the order they were appended. -/
  molecule_release_sites : List (MCellReleaseSite R)
  num_iterations : Nat
  time_step : R

/-- Lines 42-44: `molecule_species[species->name.c_str()] = species`. -/
def add_molecule_species {R : Type} (sim : MCellSimulation R) (species : Nat) :
    MCellSimulation R :=
  { sim with
    molecule_species := sim.molecule_species.set (c_str (sim.objects species).name) species }

/-- Lines 46-48: `molecule_release_sites.append ( site )`. -/
def add_molecule_release_site {R : Type} (sim : MCellSimulation R)
    (site : MCellReleaseSite R) : MCellSimulation R :=
  { sim with molecule_release_sites := sim.molecule_release_sites ++ [site] }

/-- Lines 50-54: `found = this->molecule_species[mol_name]`; `none` is NULL. -/
def get_molecule_species_by_name {R : Type} (sim : MCellSimulation R)
    (mol_name : List Byte) : Option Nat :=
  sim.molecule_species.get mol_name

/-! ## Paths and file names -/

/-- Lines 23-40. A `char *` argument is `none` when it is NULL; the result is
`none` where the C code has no defined behaviour (`strlen` of NULL), and
`some none` where it returns NULL. The separator `sep` is not used: line 36
writes `'/'`. -/
def join_path (p1 : Option CString) (sep : Char) (p2 : Option CString) :
    Option (Option CString) :=
  match p1, p2 with
  | none, none => some none
  | some s1, none => some (some s1)
  | some s1, some [] => some (some s1)
  | none, some [] => none
  | none, some (c :: s2) => some (some (c :: s2))
  | some [], some (c :: s2) => some (some (c :: s2))
  | some (a :: s1), some (c :: s2) => some (some ((a :: s1) ++ '/' :: (c :: s2)))

/-- The decimal digit character of a number below ten. -/
def digit_char (d : Nat) : Char :=
  match d with
  | 0 => '0' | 1 => '1' | 2 => '2' | 3 => '3' | 4 => '4'
  | 5 => '5' | 6 => '6' | 7 => '7' | 8 => '8' | _ => '9'

/-- The value of a decimal digit character, `none` for any other character. -/
def digit_value (c : Char) : Option Nat :=
  if c = '0' then some 0 else if c = '1' then some 1 else if c = '2' then some 2
  else if c = '3' then some 3 else if c = '4' then some 4 else if c = '5' then some 5
  else if c = '6' then some 6 else if c = '7' then some 7 else if c = '8' then some 8
  else if c = '9' then some 9 else none

/-- Decimal digits of `n`, most significant first, put in front of `acc`;
the first argument bounds the number of digits. -/
def decimal_core : Nat → Nat → List Char → List Char
  | 0, _, acc => acc
  | fuel + 1, n, acc =>
    if n / 10 = 0 then digit_char (n % 10) :: acc
    else decimal_core fuel (n / 10) (digit_char (n % 10) :: acc)

/-- What `%d` prints for a number that is not negative. -/
def decimal (n : Nat) : List Char := decimal_core (n + 1) n []

/-- What `%0<width>d` (`zero` set) or `%<width>d` prints for a number that is
not negative: the decimal digits, filled on the left up to the width. -/
def pad_decimal (zero : Bool) (width n : Nat) : List Char :=
  List.replicate (width - (decimal n).length) (if zero then '0' else ' ') ++ decimal n

/-- An argument of `sprintf` after the format. -/
inductive PrintfArg where
  | int (n : Nat)
  | str (s : CString)
deriving DecidableEq

/-- Where `sprintf` is in its format: copying text, just after a `%` (with
the flag `0` seen or not), or inside a field width. -/
inductive FormatState where
  | text
  | flags (zero : Bool)
  | width (zero : Bool) (w : Nat)
deriving DecidableEq

/-- The conversions of `sprintf` that `run_simulation` relies on: `%%`, `%s`
and `%d` with an optional `0` flag and field width. The result is `none` where
the call has no defined behaviour in this model: another conversion, an
argument of the wrong kind, or no argument left. -/
def sprintf_from : FormatState → List Char → List PrintfArg → Option CString
  | .text, [], _ => some []
  | .text, c :: cs, args =>
    if c = '%' then sprintf_from (.flags false) cs args
    else (sprintf_from .text cs args).map (fun out => c :: out)
  | .flags _, [], _ => none
  | .flags zero, c :: cs, args =>
    if c = '%' then (sprintf_from .text cs args).map (fun out => '%' :: out)
    else if c = '0' then sprintf_from (.flags true) cs args
    else if c = 's' then
      match args with
      | .str s :: more => (sprintf_from .text cs more).map (fun out => s ++ out)
      | _ => none
    else if c = 'd' then
      match args with
      | .int n :: more => (sprintf_from .text cs more).map (fun out => decimal n ++ out)
      | _ => none
    else
      match digit_value c with
      | some d => sprintf_from (.width zero d) cs args
      | none => none
  | .width _ _, [], _ => none
  | .width zero w, c :: cs, args =>
    if c = 'd' then
      match args with
      | .int n :: more =>
        (sprintf_from .text cs more).map (fun out => pad_decimal zero w n ++ out)
      | _ => none
    else
      match digit_value c with
      | some d => sprintf_from (.width zero (w * 10 + d)) cs args
      | none => none

/-- The string `sprintf ( buffer, format, args... )` leaves in its buffer. -/
def sprintf (format : CString) (args : List PrintfArg) : Option CString :=
  sprintf_from .text format args

/-- Line 111: the template of the file template. -/
def template_template : CString := "seed_00001/Scene.cellbin.%%0%dd.dat".toList

/-- The largest value of an `int` (32 bits). -/
def INT_MAX : Nat := 2147483647

/-- The value of `1 + log10(n+1)` with its fraction dropped, for `n + 1`
within the range of `int`; `log10` is taken to be exact, so that the integer
part of `log10 n` is `Nat.log 10 n`. -/
def name_width (num_iterations : Nat) : Nat := 1 + Nat.log 10 (num_iterations + 1)

/-- Line 109: `int ndigits = 1 + log10(num_iterations+1)` with the `int`
member `num_iterations`. For `num_iterations = INT_MAX` the sum
`num_iterations+1` overflows: no defined behaviour (`none`), as for the loop
counter `iteration` of line 130, which would have to pass `INT_MAX`. -/
def ndigits (num_iterations : Nat) : Option Nat :=
  if num_iterations < INT_MAX then some (name_width num_iterations) else none

/-! ## The simulation loop (lines 126-181) -/

/-- Line 160: `ds = sqrt(16.0 * 1.0e8 * dc * time_step)`, the products taken
from left to right. -/
def space_step {R G : Type} (P : Platform R G) (dc time_step : R) : R :=
  P.sqrt (P.mul (P.mul (P.mul (P.lit 16 0) (P.lit 1 8)) dc) time_step)

/-- The factor `0.70710678118654752440` of lines 171-173. -/
def axis_factor {R G : Type} (P : Platform R G) : R := P.lit 70710678118654752440 (-20)

/-- One of lines 171-173: `coordinate += ds * rng_gauss() * 0.70710678118654752440`
with `gauss` the value `rng_gauss()` returned. -/
def displaced {R G : Type} (P : Platform R G) (ds coordinate gauss : R) : R :=
  P.add coordinate (P.mul (P.mul ds gauss) (axis_factor P))

/-- The loop `while (this_mol_instance != NULL)`, lines 163-175, over the
list that starts at `this_mol_instance`: the bytes written, the list
afterwards and the generator afterwards. -/
def mol_instance_loop {R G : Type} (P : Platform R G) (ds : R) :
    List (MCellMoleculeInstance R) → G → List Byte × List (MCellMoleculeInstance R) × G
  | [], rng => ([], [], rng)
  | mol :: next, rng =>
    let written := float_bytes P mol.x ++ float_bytes P mol.y ++ float_bytes P mol.z
    let gx := P.rng_gauss rng
    let gy := P.rng_gauss gx.2
    let gz := P.rng_gauss gy.2
    let moved : MCellMoleculeInstance R :=
      { mol with
        x := displaced P ds mol.x gx.1
        y := displaced P ds mol.y gy.1
        z := displaced P ds mol.z gz.1 }
    let rest := mol_instance_loop P ds next gz.2
    (written ++ rest.1, moved :: rest.2.1, rest.2.2)

/-- Lines 148-175, the body of the loop over the species, for the species
object `this_species`: the bytes written, the object afterwards and the
generator afterwards. -/
def simulate_species {R G : Type} (P : Platform R G) (time_step : R)
    (this_species : MCellMoleculeSpecies R) (rng : G) :
    List Byte × MCellMoleculeSpecies R × G :=
  let name_len : Byte := toByte this_species.name.length
  let type_code : Byte := toByte (this_species.type_code % 256).toNat
  let total_values : Int := wrap_int32 (3 * (this_species.num_instances : Int))
  let dc := this_species.diffusion_constant
  let ds := space_step P dc time_step
  let walked := mol_instance_loop P ds this_species.instance_list rng
  ([name_len] ++ this_species.name ++ [type_code] ++ int32_bytes total_values ++ walked.1,
   { this_species with instance_list := walked.2.1 },
   walked.2.2)

/-- The loop `for (sp_num ...)`, lines 144-177, over the indices still to
visit. `none` stands for the dereference of a NULL pointer (a key the registry
does not hold). -/
def species_loop {R G : Type} (P : Platform R G) (molecule_species : MapStore Nat)
    (time_step : R) : List Nat → Objects R → G → Option (List Byte × Objects R × G)
  | [], objs, rng => some ([], objs, rng)
  | sp_num :: more, objs, rng =>
    match molecule_species.get_key sp_num with
    | none => none
    | some key =>
      match molecule_species.get key with
      | none => none
      | some this_species =>
        let done := simulate_species P time_step (objs this_species) rng
        match species_loop P molecule_species time_step more
            (Function.update objs this_species done.2.1) done.2.2 with
        | none => none
        | some rest => some (done.1 ++ rest.1, rest.2.1, rest.2.2)

/-- Lines 139-179: what is written to the file of one iteration once it is
open, up to `fclose`, with the objects and the generator afterwards. -/
def write_iteration {R G : Type} (P : Platform R G) (molecule_species : MapStore Nat)
    (time_step : R) (objs : Objects R) (rng : G) : Option (List Byte × Objects R × G) :=
  match species_loop P molecule_species time_step
      (List.range molecule_species.get_num_items) objs rng with
  | none => none
  | some r => some (int32_bytes 1 ++ r.1, r.2.1, r.2.2)

/-- The loop `for (iteration=0; iteration<=num_iterations; iteration++)`,
lines 130-181, over the iterations still to run: the files written, each with
its name, in the order of writing. The result is `none` where the run has no
defined behaviour: where `sprintf` has none, and where `fopen` returns NULL,
which line 140 hands to `fwrite` unchecked. -/
def iteration_loop {R G : Type} (P : Platform R G) (molecule_species : MapStore Nat)
    (time_step : R) (f_template : CString) :
    List Nat → Objects R → G → Option (List (CString × List Byte) × Objects R × G)
  | [], objs, rng => some ([], objs, rng)
  | iteration :: more, objs, rng =>
    match sprintf f_template [.int iteration] with
    | none => none
    | some sim_step_mol_name =>
      if P.fopen sim_step_mol_name then
        match write_iteration P molecule_species time_step objs rng with
        | none => none
        | some f =>
          match iteration_loop P molecule_species time_step f_template more f.2.1 f.2.2 with
          | none => none
          | some rest => some ((sim_step_mol_name, f.1) :: rest.1, rest.2.1, rest.2.2)
      else none

/-- What a run leaves behind: the files written, in order, each with its name,
and the object store. -/
structure RunResult (R : Type) where
  files : List (CString × List Byte)
  objects : Objects R

/-- Lines 64-182, `MCellSimulation::run_simulation`. What `mkdir` leaves
shows in `fopen` of the platform; what goes to the console is left out.
`none` stands for a run without defined behaviour. -/
def run_simulation {R G : Type} (P : Platform R G) (sim : MCellSimulation R)
    (proj_path : Option CString) : Option (RunResult R) :=
  match join_path proj_path '/' (some "react_data".toList),
        join_path proj_path '/' (some "viz_data".toList) with
  | some _, some (some viz_dir) =>
    match join_path (some viz_dir) '/' (some "seed_00001".toList) with
    | none => none
    | some _ =>
      let objs := release_loop sim.molecule_release_sites sim.objects
      match ndigits sim.num_iterations with
      | none => none
      | some width =>
        match sprintf template_template [.int width] with
        | none => none
        | some file_template =>
          match sprintf "%s/%s".toList [.str viz_dir, .str file_template] with
          | none => none
          | some f_template =>
            let mcell_random := P.mrng 12345
            match iteration_loop P sim.molecule_species sim.time_step f_template
                (List.range (sim.num_iterations + 1)) objs mcell_random with
            | none => none
            | some r => some { files := r.1, objects := r.2.1 }
  | _, _ => none

/-! ## A concrete platform

Exact decimal fixed-point arithmetic with twenty places, an invalid value
(NaN) that every operation passes on, and a small periodic stream of draws.
It is used to evaluate the definitions above on concrete inputs. -/

/-- A fixed-point number: the integer `k` stands for `k / 10^20`, and `none`
for the invalid value NaN. -/
abbrev Fixed := Option Int

/-- The decimal literal `m × 10^e` as a fixed-point number. -/
def fixed_lit (m : Nat) (e : Int) : Fixed :=
  some (((m : Int) * 10 ^ (20 + e).toNat) / 10 ^ (-(20 + e)).toNat)

/-- Sum of fixed-point numbers. -/
def fixed_add (a b : Fixed) : Fixed :=
  match a, b with
  | some x, some y => some (x + y)
  | _, _ => none

/-- Product of fixed-point numbers, cut to twenty places. -/
def fixed_mul (a b : Fixed) : Fixed :=
  match a, b with
  | some x, some y => some (Int.tdiv (x * y) (10 ^ 20))
  | _, _ => none

/-- The largest `r` with `r * r ≤ n`, found bit by bit; the first argument
bounds the number of steps. -/
def isqrt_core : Nat → Nat → Nat
  | 0, _ => 0
  | fuel + 1, n =>
    if n = 0 then 0
    else
      let r := 2 * isqrt_core fuel (n / 4)
      if (r + 1) * (r + 1) ≤ n then r + 1 else r

/-- Square root of a fixed-point number, cut to twenty places; NaN for a
negative number. -/
def fixed_sqrt (a : Fixed) : Fixed :=
  match a with
  | some (Int.ofNat n) => some (Int.ofNat (isqrt_core 200 (n * 10 ^ 20)))
  | _ => none

/-- Brings `a / b` into the range from 1 up to 2 by doubling one side, counting
the binary exponent (biased by 127) on the way. -/
def normalize_core : Nat → Nat → Nat → Nat → Nat × Nat × Nat
  | 0, a, b, e => (a, b, e)
  | fuel + 1, a, b, e =>
    if 2 * b ≤ a then normalize_core fuel a (2 * b) (e + 1)
    else if a < b then normalize_core fuel (2 * a) b (e - 1)
    else (a, b, e)

/-- The IEEE-754 single-precision bit pattern of a fixed-point number, cut
towards zero; values outside the normal range become zero or infinity. -/
def fixed_to_float (a : Fixed) : Nat :=
  match a with
  | none => 2143289344
  | some x =>
    let sign : Nat := if x < 0 then 2147483648 else 0
    let n := x.natAbs
    if n = 0 then sign
    else
      let r := normalize_core 400 n (10 ^ 20) 127
      if r.2.2 = 0 then sign
      else if 255 ≤ r.2.2 then sign + 2139095040
      else sign + r.2.2 * 8388608 + (r.1 * 8388608 / r.2.1 - 8388608)

/-- A periodic stream of draws between -0.5 and 0.5; the generator state is
the number of draws made, counted from the seed. -/
def fixed_gauss (state : Nat) : Fixed × Nat :=
  (some ((((7 * state + 3) % 11 : Nat) : Int) * 10 ^ 19 - 5 * 10 ^ 19), state + 1)

/-- The concrete platform. -/
def fixed_platform : Platform Fixed Nat where
  lit := fixed_lit
  add := fixed_add
  mul := fixed_mul
  sqrt := fixed_sqrt
  to_float := fixed_to_float
  mrng := fun seed => seed
  rng_gauss := fixed_gauss
  fopen := fun _ => true

/-- The concrete platform in a file system where no file can be opened (the
project directory does not exist). -/
def closed_platform : Platform Fixed Nat :=
  { fixed_platform with fopen := fun _ => false }

/-! ## A concrete platform with signed zeros

The fixed-point arithmetic again, with a sign that a zero keeps, as in
IEEE 754: `-0.0` and `+0.0` are different values with different bytes. -/

/-- The instance lines 96-103 create for a release site. -/
def site_instance {R : Type} (site : MCellReleaseSite R) : MCellMoleculeInstance R :=
  { molecule_species := site.molecule_species, x := site.x, y := site.y, z := site.z }

/-- The sites of a list that release into the species at address `S`. -/
def sites_of {R : Type} (S : Nat) (sites : List (MCellReleaseSite R)) :
    List (MCellReleaseSite R) :=
  sites.filter (fun site => decide (site.molecule_species = S))

/-- The sum of the quantities of a list of sites. -/
def total_quantity {R : Type} (sites : List (MCellReleaseSite R)) : Nat :=
  (sites.map (fun site => site.quantity)).sum

/-- The instances the sites of a list create for the species at address `S`,
the last one created first: for every such site, the latest site first, as
many instances at its point as its quantity. -/
def released_instances {R : Type} (S : Nat) (sites : List (MCellReleaseSite R)) :
    List (MCellMoleculeInstance R) :=
  (sites_of S sites).reverse.flatMap
    (fun site => List.replicate site.quantity (site_instance site))

/-- The generator after `n` calls of `rng_gauss()`. -/
def rng_after {R G : Type} (P : Platform R G) : G → Nat → G
  | rng, 0 => rng
  | rng, n + 1 => rng_after P (P.rng_gauss rng).2 n

/-- The Gaussian stream of a generator: `draw P rng n` is the value the call
number `n` (counted from 0) of `rng_gauss()` returns. -/
def draw {R G : Type} (P : Platform R G) (rng : G) (n : Nat) : R :=
  (P.rng_gauss (rng_after P rng n)).1

/-- The names (keys) of a registry, in its order. -/
def MapStore.keys {V : Type} (m : MapStore V) : List (List Byte) := m.entries.map Prod.fst

/-- The values of a registry, in its order: for the species registry, the
addresses of the registered species objects. -/
def MapStore.values {V : Type} (m : MapStore V) : List V := m.entries.map Prod.snd

/-- The loop over the species, lines 144-177, written over the addresses of
the species objects it visits instead of over their indices. -/
def species_pass {R G : Type} (P : Platform R G) (time_step : R) :
    List Nat → Objects R → G → List Byte × Objects R × G
  | [], objs, rng => ([], objs, rng)
  | this_species :: more, objs, rng =>
    let done := simulate_species P time_step (objs this_species) rng
    let rest := species_pass P time_step more
      (Function.update objs this_species done.2.1) done.2.2
    (done.1 ++ rest.1, rest.2.1, rest.2.2)

/-- The bytes lines 148-169 write for a species object: name length, name,
type code, `total_values` and the coordinates of its instances. -/
def species_bytes {R G : Type} (P : Platform R G) (sp : MCellMoleculeSpecies R) : List Byte :=
  [toByte sp.name.length] ++ sp.name ++ [toByte (sp.type_code % 256).toNat]
    ++ int32_bytes (wrap_int32 (3 * (sp.num_instances : Int)))
    ++ sp.instance_list.flatMap
        (fun mol => float_bytes P mol.x ++ float_bytes P mol.y ++ float_bytes P mol.z)

/-- The number of instances held by the species objects that come before the
address `q` in a list of addresses. -/
def particles_before {R : Type} (objs : Objects R) : List Nat → Nat → Nat
  | [], _ => 0
  | p :: ps, q =>
    if p = q then 0 else (objs p).instance_list.length + particles_before objs ps q

/-- The number a string of decimal digits denotes; a character that is no
digit counts as the digit 0. -/
def read_decimal (s : List Char) : Nat :=
  s.foldl (fun acc c => acc * 10 + (digit_value c).getD 0) 0

/-- The directory of the trajectory files as line 76 makes it: `viz_data`
under the project path, or `viz_data` alone when the path is NULL or empty. -/
def viz_dir_of (proj_path : Option CString) : CString :=
  match proj_path with
  | none => "viz_data".toList
  | some [] => "viz_data".toList
  | some (a :: s) => (a :: s) ++ "/viz_data".toList

/-- The name `<viz_dir>/seed_00001/Scene.cellbin.<iteration>.dat` with the
iteration zero-padded to a width. -/
def file_name (viz_dir : CString) (width iteration : Nat) : CString :=
  viz_dir ++ "/seed_00001/Scene.cellbin.".toList ++ pad_decimal true width iteration
    ++ ".dat".toList

/-- A project path without the character `%`: used as part of a `sprintf`
format (line 133) it is copied as it stands. -/
def format_free (proj_path : Option CString) : Prop :=
  match proj_path with
  | none => True
  | some s => '%' ∉ s

/-- Whether a project path holds a `%` can be computed. -/
instance format_free_decidable (proj_path : Option CString) :
    Decidable (format_free proj_path) := by
  cases proj_path
  · exact isTrue trivial
  · unfold format_free
    infer_instance

/-- The objects and the generator after a number of passes of the loop over
the species at the addresses `ps`. -/
def state_after {R G : Type} (P : Platform R G) (time_step : R) (ps : List Nat) :
    Nat → Objects R × G → Objects R × G
  | 0, s => s
  | n + 1, s => state_after P time_step ps n (species_pass P time_step ps s.1 s.2).2

/-- The objects and the generator at the start of iteration `i` of a run:
after the release loop, the seeding with 12345 and `i` passes. -/
def state_at {R G : Type} (P : Platform R G) (sim : MCellSimulation R) (i : Nat) :
    Objects R × G :=
  state_after P sim.time_step sim.molecule_species.values i
    (release_loop sim.molecule_release_sites sim.objects, P.mrng 12345)

/-- The objects at the start of iteration `i` of a run. -/
def objects_at {R G : Type} (P : Platform R G) (sim : MCellSimulation R) (i : Nat) :
    Objects R :=
  (state_at P sim i).1

/-! ## The binary layout of the spec (section 4.5) -/

/-- One `species_block` of the layout: `name_len(uint8) name_bytes[name_len]
type_code(uint8) total_values(int32) value(float32){total_values}`, a value
held as its 32-bit pattern. -/
structure SpeciesBlock where
  name_len : Nat
  name_bytes : List Byte
  type_code : Nat
  total_values : Int
  values : List Nat
deriving DecidableEq

/-- A block fits the layout when its fields have the sizes the layout gives
them: `name_len` and `type_code` are bytes, `name_len` name bytes follow,
`total_values` is an `int32` that is not negative, and `total_values` values
of 32 bits follow. -/
def SpeciesBlock.fits (b : SpeciesBlock) : Prop :=
  b.name_len < 256 ∧ b.name_bytes.length = b.name_len ∧ b.type_code < 256
    ∧ 0 ≤ b.total_values ∧ b.total_values < 2147483648
    ∧ (b.values.length : Int) = b.total_values ∧ ∀ v ∈ b.values, v < 4294967296

/-- Whether a block fits the layout can be computed. -/
instance fits_decidable (b : SpeciesBlock) : Decidable b.fits := by
  unfold SpeciesBlock.fits
  infer_instance

/-- The bytes of a block, field after field. -/
def encode_block (b : SpeciesBlock) : List Byte :=
  [toByte b.name_len] ++ b.name_bytes ++ [toByte b.type_code] ++ int32_bytes b.total_values
    ++ b.values.flatMap le32

/-- The bytes of a file: `marker := int32(1)`, then the blocks. -/
def encode_file (blocks : List SpeciesBlock) : List Byte :=
  int32_bytes 1 ++ blocks.flatMap encode_block

/-- The block the spec describes for a species object: its name, its type
code, `total_values = 3 × particle_count` and the flattened (x, y, z) triples
of its instances in list order, each converted to `float`. -/
def block_of {R G : Type} (P : Platform R G) (sp : MCellMoleculeSpecies R) : SpeciesBlock :=
  { name_len := sp.name.length
    name_bytes := sp.name
    type_code := (sp.type_code % 256).toNat
    total_values := 3 * (sp.instance_list.length : Int)
    values := sp.instance_list.flatMap (fun mol =>
      [P.to_float mol.x % 4294967296, P.to_float mol.y % 4294967296,
        P.to_float mol.z % 4294967296]) }

/-- The blocks of a snapshot: one for each species of the registry, in
registry order. -/
def blocks_of {R G : Type} (P : Platform R G) (molecule_species : MapStore Nat)
    (objs : Objects R) : List SpeciesBlock :=
  molecule_species.values.map (fun p => block_of P (objs p))

/-- The species objects at the addresses of a list registered one after the
other with `add_molecule_species`. -/
def register_all {R : Type} (sim : MCellSimulation R) (added : List Nat) :
    MCellSimulation R :=
  added.foldl add_molecule_species sim

/-- The instances the sites of a list create for the species at address `S`,
in the order in which lines 96-103 create them. -/
def creation_order {R : Type} (S : Nat) (sites : List (MCellReleaseSite R)) :
    List (MCellMoleculeInstance R) :=
  (sites_of S sites).flatMap (fun site => List.replicate site.quantity (site_instance site))

/-- The name a reader of the section 4.5 layout takes from the bytes of a
species block: it reads the byte `name_len` and then `name_len` name bytes. -/
def read_name (block : List Byte) : List Byte :=
  match block with
  | [] => []
  | name_len :: more => more.take name_len.val

/-- A species "A" with no molecules and diffusion constant 1e-6. -/
def species_A : MCellMoleculeSpecies Fixed :=
  { name := [65], type_code := 0, diffusion_constant := fixed_lit 1 (-6),
    num_instances := 0, instance_list := [] }

/-- The release site of five molecules of the species at address 0, at (1, 2, 3). -/
def site_A5 : MCellReleaseSite Fixed :=
  { x := fixed_lit 1 0, y := fixed_lit 2 0, z := fixed_lit 3 0,
    molecule_species := 0, quantity := 5 }

/-- A species "B" with no molecules, type code 1 and diffusion constant 0. -/
def species_B : MCellMoleculeSpecies Fixed :=
  { name := [66], type_code := 1, diffusion_constant := fixed_lit 0 0,
    num_instances := 0, instance_list := [] }

/-- An object store with species "B" at address 1 and species "A" elsewhere. -/
def example_objects : Objects Fixed := fun p => if p = 1 then species_B else species_A

/-- The release site of two molecules of the species at address 0, at (1, 2, 3). -/
def site_A2 : MCellReleaseSite Fixed :=
  { x := fixed_lit 1 0, y := fixed_lit 2 0, z := fixed_lit 3 0,
    molecule_species := 0, quantity := 2 }

/-- The release site of one molecule of the species at address 1, at (0.5, 0, 10). -/
def site_B1 : MCellReleaseSite Fixed :=
  { x := fixed_lit 5 (-1), y := fixed_lit 0 0, z := fixed_lit 1 1,
    molecule_species := 1, quantity := 1 }

/-- A simulation of two iterations after the first, with time step 1e-6:
species "A" and "B" registered in this order, two molecules of "A" released
at (1, 2, 3) and one of "B" at (0.5, 0, 10). -/
def example_sim : MCellSimulation Fixed :=
  add_molecule_release_site
    (add_molecule_release_site
      (add_molecule_species
        (add_molecule_species
          { objects := example_objects, molecule_species := MapStore.empty,
            molecule_release_sites := [], num_iterations := 2,
            time_step := fixed_lit 1 (-6) } 0) 1)
      site_A2)
    site_B1

/-- The project path `/tmp/p`. -/
def example_path : Option CString := some "/tmp/p".toList

/-- A species whose name is the letter "A" 256 times, with no molecules. -/
def long_name_species : MCellMoleculeSpecies Fixed :=
  { name := List.replicate 256 65, type_code := 0, diffusion_constant := fixed_lit 0 0,
    num_instances := 0, instance_list := [] }

/-- A simulation whose registry holds the species with the long name alone. -/
def long_name_sim : MCellSimulation Fixed :=
  add_molecule_species
    { objects := fun _ => long_name_species, molecule_species := MapStore.empty,
      molecule_release_sites := [], num_iterations := 0, time_step := fixed_lit 1 (-6) } 0

/-- A second species object named "A", with type code 2. -/
def species_A_again : MCellMoleculeSpecies Fixed :=
  { name := [65], type_code := 2, diffusion_constant := fixed_lit 5 (-6),
    num_instances := 0, instance_list := [] }

/-- A simulation with species "A" registered (the object at address 0) and a
second species object named "A" at address 2. -/
def duplicate_sim : MCellSimulation Fixed :=
  add_molecule_species
    { objects := fun p => if p = 2 then species_A_again else species_A,
      molecule_species := MapStore.empty, molecule_release_sites := [],
      num_iterations := 0, time_step := fixed_lit 1 (-6) } 0

/-- The release site of one molecule of the species at address 0, at (7, 8, 9). -/
def site_A1 : MCellReleaseSite Fixed :=
  { x := fixed_lit 7 0, y := fixed_lit 8 0, z := fixed_lit 9 0,
    molecule_species := 0, quantity := 1 }

/-- A simulation whose registry holds the species object at address 0 under
two names: it was registered as "A", renamed "X" and registered again. One
molecule is released into it at (7, 8, 9); one iteration after the first. -/
def two_names_sim : MCellSimulation Fixed :=
  add_molecule_release_site
    (add_molecule_species
      { add_molecule_species
          { objects := example_objects, molecule_species := MapStore.empty,
            molecule_release_sites := [], num_iterations := 1,
            time_step := fixed_lit 1 (-6) } 0 with
        objects := Function.update example_objects 0 { species_A with name := [88] } } 0)
    site_A1

/-- The release site of one molecule of the species at address 5, which the
example simulation does not register. -/
def site_stray : MCellReleaseSite Fixed :=
  { x := fixed_lit 1 0, y := fixed_lit 2 0, z := fixed_lit 3 0,
    molecule_species := 5, quantity := 1 }

/-- The species "A" and "B" registered, and one release site for a species
object that is not registered; no iteration after the first. -/
def stray_site_sim : MCellSimulation Fixed :=
  add_molecule_release_site
    (add_molecule_species
      (add_molecule_species
        { objects := example_objects, molecule_species := MapStore.empty,
          molecule_release_sites := [], num_iterations := 0,
          time_step := fixed_lit 1 (-6) } 0) 1)
    site_stray

variable {R G : Type}

/-- Releasing a molecule changes no object but the site's species. -/
theorem release_molecule_other (site : MCellReleaseSite R) (objs : Objects R) (q : Nat)
    (h : q ≠ site.molecule_species) : release_molecule site objs q = objs q := by
  simp [release_molecule, Function.update_noteq h]

/-- Releasing a molecule puts the site's instance in front of the list of its
species and raises the count by one. -/
theorem release_molecule_same (site : MCellReleaseSite R) (objs : Objects R) :
    release_molecule site objs site.molecule_species =
      { objs site.molecule_species with
        instance_list := site_instance site :: (objs site.molecule_species).instance_list
        num_instances := (objs site.molecule_species).num_instances + 1 } := by
  simp [release_molecule, site_instance]

/-- The inner release loop changes no object but the site's species. -/
theorem release_site_other (site : MCellReleaseSite R) (n : Nat) (objs : Objects R) (q : Nat)
    (h : q ≠ site.molecule_species) : release_site site n objs q = objs q := by
  induction n generalizing objs with
  | zero => rfl
  | succ n ih => rw [release_site, ih, release_molecule_other site objs q h]

/-- The inner release loop run `n` times puts `n` instances of the site in
front of the list of its species and adds `n` to the count. -/
theorem release_site_same (site : MCellReleaseSite R) (n : Nat) (objs : Objects R) :
    release_site site n objs site.molecule_species =
      { objs site.molecule_species with
        instance_list :=
          List.replicate n (site_instance site) ++ (objs site.molecule_species).instance_list
        num_instances := (objs site.molecule_species).num_instances + n } := by
  induction n generalizing objs with
  | zero => simp [release_site]
  | succ n ih =>
    rw [release_site, ih, release_molecule_same]
    simp [List.replicate_succ', Nat.add_assoc, Nat.add_comm 1 n]

/-- The release loop at one address: the instances of `released_instances` in
front of the list that was there, and the count raised by the quantities of the
sites that target the address. -/
theorem release_loop_at (sites : List (MCellReleaseSite R)) (objs : Objects R) (S : Nat) :
    release_loop sites objs S =
      { objs S with
        instance_list := released_instances S sites ++ (objs S).instance_list
        num_instances := (objs S).num_instances + total_quantity (sites_of S sites) } := by
  induction sites generalizing objs with
  | nil => simp [release_loop, released_instances, sites_of, total_quantity]
  | cons site rest ih =>
    rw [release_loop, ih]
    by_cases h : site.molecule_species = S
    · subst h
      rw [release_site_same]
      simp [released_instances, sites_of, total_quantity, List.filter_cons, Nat.add_assoc]
    · rw [release_site_other site _ objs S (Ne.symm h)]
      simp [released_instances, sites_of, total_quantity, List.filter_cons, h]

/-- There are as many released instances as the quantities of the sites of the
species add up to. -/
theorem released_instances_length (S : Nat) (sites : List (MCellReleaseSite R)) :
    (released_instances S sites).length = total_quantity (sites_of S sites) := by
  simp [released_instances, total_quantity, List.length_flatMap, Function.comp_def,
    List.sum_reverse]

/-- Every released instance is the instance of one of the sites of the species.
-/
theorem released_instances_mem (S : Nat) (sites : List (MCellReleaseSite R))
    (mol : MCellMoleculeInstance R) (h : mol ∈ released_instances S sites) :
    ∃ site ∈ sites, site.molecule_species = S ∧ mol = site_instance site := by
  simp only [released_instances, sites_of, List.mem_flatMap, List.mem_reverse,
    List.mem_filter, decide_eq_true_eq] at h
  obtain ⟨site, ⟨hs, hS⟩, hm⟩ := h
  exact ⟨site, hs, hS, (List.mem_replicate.mp hm).2⟩

/-- C1 (release correctness): when the species at address `S` starts with an
empty instance list, the release loop leaves it with as many instances as the
quantities of the sites that target it add up to, its count raised by the
same number, and the instances are exactly those of `released_instances`:
every one lies at the point of a site that targets `S`. -/
theorem release_correctness (sites : List (MCellReleaseSite R)) (objs : Objects R) (S : Nat)
    (hempty : (objs S).instance_list = []) :
    (release_loop sites objs S).instance_list.length = total_quantity (sites_of S sites)
    ∧ (release_loop sites objs S).num_instances
        = (objs S).num_instances + total_quantity (sites_of S sites)
    ∧ (release_loop sites objs S).instance_list = released_instances S sites
    ∧ ∀ mol ∈ (release_loop sites objs S).instance_list,
        ∃ site ∈ sites, site.molecule_species = S ∧
          mol.x = site.x ∧ mol.y = site.y ∧ mol.z = site.z := by
  have h := release_loop_at sites objs S
  rw [hempty, List.append_nil] at h
  refine ⟨?_, ?_, ?_, ?_⟩
  · rw [h]; exact released_instances_length S sites
  · rw [h]
  · rw [h]
  · intro mol hm
    rw [h] at hm
    obtain ⟨site, hs, hS, rfl⟩ := released_instances_mem S sites mol hm
    exact ⟨site, hs, hS, rfl, rfl, rfl⟩

/-- The single site (species at address 0, point (1, 2, 3), quantity 5) leaves
the species with five instances, all at (1, 2, 3), and count 5. -/
theorem release_correctness_witness :
    ((fun _ => species_A : Objects Fixed) 0).instance_list = []
    ∧ (release_loop [site_A5] (fun _ => species_A) 0).instance_list.length = 5
    ∧ (release_loop [site_A5] (fun _ => species_A) 0).num_instances = 5
    ∧ ∀ mol ∈ (release_loop [site_A5] (fun _ => species_A) 0).instance_list,
        mol.x = fixed_lit 1 0 ∧ mol.y = fixed_lit 2 0 ∧ mol.z = fixed_lit 3 0 := by
  have h := release_correctness [site_A5] (fun _ => species_A) 0 rfl
  refine ⟨rfl, ?_, ?_, ?_⟩
  · rw [h.1]; decide
  · rw [h.2.1]; decide
  · intro mol hm
    obtain ⟨site, hs, -, hx, hy, hz⟩ := h.2.2.2 mol hm
    simp only [List.mem_singleton] at hs
    subst hs
    exact ⟨hx, hy, hz⟩

/-- Calls of the generator add up. -/
theorem rng_after_add (P : Platform R G) (rng : G) (a b : Nat) :
    rng_after P rng (a + b) = rng_after P (rng_after P rng a) b := by
  induction a generalizing rng with
  | zero => simp [rng_after]
  | succ a ih => rw [Nat.succ_add, rng_after, ih, rng_after]

/-- The stream of a generator advanced by `a` calls is the stream shifted by
`a`. -/
theorem draw_shift (P : Platform R G) (rng : G) (a n : Nat) :
    draw P (rng_after P rng a) n = draw P rng (a + n) := by
  simp [draw, rng_after_add]

/-- The loop over the instances writes the positions the instances have when it
starts. -/
theorem mol_instance_loop_written (P : Platform R G) (ds : R)
    (mols : List (MCellMoleculeInstance R)) (rng : G) :
    (mol_instance_loop P ds mols rng).1 =
      mols.flatMap (fun mol => float_bytes P mol.x ++ float_bytes P mol.y ++ float_bytes P mol.z) := by
  induction mols generalizing rng with
  | nil => rfl
  | cons mol next ih => simp [mol_instance_loop, ih]

/-- The loop over the instances keeps the number of instances. -/
theorem mol_instance_loop_length (P : Platform R G) (ds : R)
    (mols : List (MCellMoleculeInstance R)) (rng : G) :
    (mol_instance_loop P ds mols rng).2.1.length = mols.length := by
  induction mols generalizing rng with
  | nil => rfl
  | cons mol next ih => simp [mol_instance_loop, ih]

/-- The loop over the instances takes three draws for every instance. -/
theorem mol_instance_loop_rng (P : Platform R G) (ds : R)
    (mols : List (MCellMoleculeInstance R)) (rng : G) :
    (mol_instance_loop P ds mols rng).2.2 = rng_after P rng (3 * mols.length) := by
  induction mols generalizing rng with
  | nil => rfl
  | cons mol next ih =>
    simp only [mol_instance_loop, ih, List.length_cons]
    rw [show 3 * (next.length + 1) = 3 + 3 * next.length by ring, rng_after_add]
    rfl

/-- The instance number `k` after the loop: displaced by the draws number `3k`,
`3k+1`, `3k+2`. -/
theorem mol_instance_loop_get (P : Platform R G) (ds : R)
    (mols : List (MCellMoleculeInstance R)) (rng : G) (k : Nat) (mol : MCellMoleculeInstance R)
    (h : mols.get? k = some mol) :
    (mol_instance_loop P ds mols rng).2.1.get? k =
      some { mol with
        x := displaced P ds mol.x (draw P rng (3 * k))
        y := displaced P ds mol.y (draw P rng (3 * k + 1))
        z := displaced P ds mol.z (draw P rng (3 * k + 2)) } := by
  induction mols generalizing rng k with
  | nil => simp at h
  | cons m next ih =>
    cases k with
    | zero =>
      simp only [List.get?_cons_zero, Option.some.injEq] at h
      subst h
      simp [mol_instance_loop, draw, rng_after]
    | succ k =>
      simp only [List.get?_cons_succ] at h
      simp only [mol_instance_loop, List.get?_cons_succ]
      rw [ih _ k h]
      have e : ∀ j, draw P (P.rng_gauss (P.rng_gauss (P.rng_gauss rng).2).2).2 j
          = draw P rng (3 + j) := fun j => draw_shift P rng 3 j
      simp only [e]
      rw [show 3 + 3 * k = 3 * (k + 1) by ring, show 3 + (3 * k + 1) = 3 * (k + 1) + 1 by ring,
        show 3 + (3 * k + 2) = 3 * (k + 1) + 2 by ring]

/-- The list after the loop over the instances, instance by instance. -/
theorem mol_instance_loop_moved (P : Platform R G) (ds : R)
    (mols : List (MCellMoleculeInstance R)) (rng : G) :
    (mol_instance_loop P ds mols rng).2.1 =
      mols.enum.map (fun km =>
        { km.2 with
          x := displaced P ds km.2.x (draw P rng (3 * km.1))
          y := displaced P ds km.2.y (draw P rng (3 * km.1 + 1))
          z := displaced P ds km.2.z (draw P rng (3 * km.1 + 2)) }) := by
  apply List.ext_get?
  intro k
  cases h : mols.get? k with
  | none =>
    have hk : mols.length ≤ k := List.get?_eq_none.mp h
    rw [List.get?_eq_none.mpr (by rw [mol_instance_loop_length]; exact hk),
      List.get?_eq_none.mpr (by simpa using hk)]
  | some mol =>
    rw [mol_instance_loop_get P ds mols rng k mol h]
    simp [List.get?_eq_getElem?, List.getElem?_map, List.getElem?_enum] 
    simp [List.get?_eq_getElem?] at h
    simp [h]

/-- The bytes written for a species are those of the object before it is
displaced. -/
theorem simulate_species_written (P : Platform R G) (time_step : R)
    (sp : MCellMoleculeSpecies R) (rng : G) :
    (simulate_species P time_step sp rng).1 = species_bytes P sp := by
  simp only [simulate_species, species_bytes, mol_instance_loop_written]

/-- Simulating a species takes three draws for every instance. -/
theorem simulate_species_rng (P : Platform R G) (time_step : R)
    (sp : MCellMoleculeSpecies R) (rng : G) :
    (simulate_species P time_step sp rng).2.2 = rng_after P rng (3 * sp.instance_list.length) := by
  simp only [simulate_species, mol_instance_loop_rng]

/-- Simulating a species changes nothing of the object but the positions in its
list. -/
theorem simulate_species_fields (P : Platform R G) (time_step : R)
    (sp : MCellMoleculeSpecies R) (rng : G) :
    (simulate_species P time_step sp rng).2.1.name = sp.name
    ∧ (simulate_species P time_step sp rng).2.1.type_code = sp.type_code
    ∧ (simulate_species P time_step sp rng).2.1.diffusion_constant = sp.diffusion_constant
    ∧ (simulate_species P time_step sp rng).2.1.num_instances = sp.num_instances
    ∧ (simulate_species P time_step sp rng).2.1.instance_list.length = sp.instance_list.length := by
  simp [simulate_species, mol_instance_loop_length]

/-- In entries with distinct keys, reading the key of an entry gives the value
of that entry. -/
theorem assoc_get_of_mem {V : Type} (es : List (List Byte × V)) (k : List Byte) (v : V)
    (hnd : (es.map Prod.fst).Nodup) (h : (k, v) ∈ es) : assoc_get es k = some v := by
  induction es with
  | nil => simp at h
  | cons e rest ih =>
    obtain ⟨k', v'⟩ := e
    simp only [List.map_cons, List.nodup_cons, List.mem_map, not_exists, not_and] at hnd
    simp only [List.mem_cons, Prod.mk.injEq] at h
    simp only [assoc_get]
    rcases h with ⟨rfl, rfl⟩ | h
    · simp
    · have : k' ≠ k := fun e => hnd.1 (k, v) h (e ▸ rfl)
      rw [if_neg this]
      exact ih hnd.2 h

/-- The loop over the species from index `a` on visits the addresses of the
entries from `a` on, and dereferences no NULL pointer. -/
theorem species_loop_range' (P : Platform R G) (reg : MapStore Nat) (time_step : R)
    (post : List (List Byte × Nat)) (a : Nat)
    (hpost : reg.entries.drop a = post) (objs : Objects R) (rng : G) :
    species_loop P reg time_step (List.range' a post.length) objs rng =
      some (species_pass P time_step (post.map Prod.snd) objs rng) := by
  induction post generalizing a objs rng with
  | nil => simp [species_loop, species_pass]
  | cons e post ih =>
    have hget : reg.entries.get? a = some e := by
      rw [List.get?_eq_getElem?, ← List.head?_drop, hpost]; rfl
    have hmem : e ∈ reg.entries := List.get?_mem hget
    have hdrop : reg.entries.drop (a + 1) = post := by
      rw [← List.drop_drop, hpost]; rfl
    simp only [List.length_cons, List.range'_succ, species_loop, MapStore.get_key, hget,
      Option.map_some', MapStore.get]
    rw [assoc_get_of_mem reg.entries e.1 e.2 reg.keys_nodup hmem]
    simp only [ih (a + 1) hdrop, species_pass, List.map_cons]

/-- The loop over the species is the pass over the addresses of the registry,
in registry order. -/
theorem species_loop_eq_pass (P : Platform R G) (reg : MapStore Nat) (time_step : R)
    (objs : Objects R) (rng : G) :
    species_loop P reg time_step (List.range reg.get_num_items) objs rng =
      some (species_pass P time_step reg.values objs rng) := by
  have h := species_loop_range' P reg time_step reg.entries 0 rfl objs rng
  rw [List.range_eq_range']
  exact h

/-- The file of one iteration: the marker, then what the pass over the registry
writes. -/
theorem write_iteration_eq (P : Platform R G) (reg : MapStore Nat) (time_step : R)
    (objs : Objects R) (rng : G) :
    write_iteration P reg time_step objs rng =
      some (int32_bytes 1 ++ (species_pass P time_step reg.values objs rng).1,
        (species_pass P time_step reg.values objs rng).2.1,
        (species_pass P time_step reg.values objs rng).2.2) := by
  simp only [write_iteration, species_loop_eq_pass P reg time_step]

/-- A pass leaves the objects it does not visit as they are. -/
theorem species_pass_other (P : Platform R G) (time_step : R) (ps : List Nat)
    (objs : Objects R) (rng : G) (q : Nat) (hq : q ∉ ps) :
    (species_pass P time_step ps objs rng).2.1 q = objs q := by
  induction ps generalizing objs rng with
  | nil => rfl
  | cons p ps ih =>
    simp only [List.mem_cons, not_or] at hq
    simp only [species_pass]
    rw [ih _ _ hq.2, Function.update_noteq hq.1]

/-- A pass changes nothing of an object but the positions in its instance list. -/
theorem species_pass_fields (P : Platform R G) (time_step : R) (ps : List Nat)
    (objs : Objects R) (rng : G) (q : Nat) :
    ((species_pass P time_step ps objs rng).2.1 q).name = (objs q).name
    ∧ ((species_pass P time_step ps objs rng).2.1 q).type_code = (objs q).type_code
    ∧ ((species_pass P time_step ps objs rng).2.1 q).diffusion_constant
        = (objs q).diffusion_constant
    ∧ ((species_pass P time_step ps objs rng).2.1 q).num_instances = (objs q).num_instances
    ∧ ((species_pass P time_step ps objs rng).2.1 q).instance_list.length
        = (objs q).instance_list.length := by
  induction ps generalizing objs rng with
  | nil => simp [species_pass]
  | cons p ps ih =>
    simp only [species_pass]
    have h := ih (Function.update objs p (simulate_species P time_step (objs p) rng).2.1)
      (simulate_species P time_step (objs p) rng).2.2
    by_cases hpq : q = p
    · subst hpq
      simp only [Function.update_same] at h
      have f := simulate_species_fields P time_step (objs q) rng
      exact ⟨h.1.trans f.1, h.2.1.trans f.2.1, h.2.2.1.trans f.2.2.1,
        h.2.2.2.1.trans f.2.2.2.1, h.2.2.2.2.trans f.2.2.2.2⟩
    · simp only [Function.update_noteq hpq] at h
      exact h

/-- With every object visited once, a pass writes every object as it was
before the pass. -/
theorem species_pass_written (P : Platform R G) (time_step : R) (ps : List Nat)
    (hps : ps.Nodup) (objs : Objects R) (rng : G) :
    (species_pass P time_step ps objs rng).1 = ps.flatMap (fun p => species_bytes P (objs p)) := by
  induction ps generalizing objs rng with
  | nil => rfl
  | cons p ps ih =>
    rw [List.nodup_cons] at hps
    simp only [species_pass, List.flatMap_cons]
    rw [ih hps.2, simulate_species_written]
    congr 1
    apply List.flatMap_congr
    intro q hq
    have hqp : q ≠ p := fun e => hps.1 (e ▸ hq)
    rw [Function.update_noteq hqp]

/-- The number of instances before an address depends on the lengths of the
lists only. -/
theorem particles_before_congr (objs objs' : Objects R) (ps : List Nat) (q : Nat)
    (h : ∀ p ∈ ps, (objs' p).instance_list.length = (objs p).instance_list.length) :
    particles_before objs' ps q = particles_before objs ps q := by
  induction ps with
  | nil => rfl
  | cons p ps ih =>
    simp only [particles_before]
    rw [h p (List.mem_cons_self _ _), ih (fun r hr => h r (List.mem_cons_of_mem _ hr))]

/-- With every object visited once, a pass simulates the object at `q` as it
was before the pass, with the generator three draws further for every
instance of the objects visited before it. -/
theorem species_pass_at (P : Platform R G) (time_step : R) (ps : List Nat)
    (hps : ps.Nodup) (objs : Objects R) (rng : G) (q : Nat) (hq : q ∈ ps) :
    (species_pass P time_step ps objs rng).2.1 q =
      (simulate_species P time_step (objs q)
        (rng_after P rng (3 * particles_before objs ps q))).2.1 := by
  induction ps generalizing objs rng with
  | nil => simp at hq
  | cons p ps ih =>
    rw [List.nodup_cons] at hps
    simp only [species_pass]
    by_cases hpq : p = q
    · subst hpq
      rw [species_pass_other P time_step ps _ _ p hps.1, Function.update_same]
      simp [particles_before, rng_after]
    · have hq' : q ∈ ps := by
        rcases List.mem_cons.mp hq with h | h
        · exact absurd h.symm hpq
        · exact h
      rw [ih hps.2 _ _ hq', Function.update_noteq (Ne.symm hpq), simulate_species_rng,
        ← rng_after_add]
      have hc : particles_before
          (Function.update objs p (simulate_species P time_step (objs p) rng).2.1) ps q
            = particles_before objs ps q := by
        apply particles_before_congr
        intro r _
        by_cases hrp : r = p
        · subst hrp
          rw [Function.update_same]
          exact (simulate_species_fields P time_step (objs r) rng).2.2.2.2
        · rw [Function.update_noteq hrp]
      rw [hc]
      simp only [particles_before, if_neg hpq]
      rw [Nat.mul_add]

/-- A digit character has the value of its digit. -/
theorem digit_value_digit_char (d : Nat) (h : d < 10) : digit_value (digit_char d) = some d := by
  interval_cases d <;> rfl

/-- A digit character is none of the characters that end a conversion. -/
theorem digit_char_ne (d : Nat) :
    digit_char d ≠ '%' ∧ digit_char d ≠ 'd' ∧ digit_char d ≠ 's' := by
  unfold digit_char
  split <;> decide

/-- The character of a digit that is not 0 is not the character 0. -/
theorem digit_char_ne_zero (d : Nat) (h0 : 0 < d) : digit_char d ≠ '0' := by
  unfold digit_char
  split <;> first | omega | decide

/-- The digits are put in front of the accumulator. -/
theorem decimal_core_acc (fuel n : Nat) (acc : List Char) :
    decimal_core fuel n acc = decimal_core fuel n [] ++ acc := by
  induction fuel generalizing n acc with
  | zero => simp [decimal_core]
  | succ fuel ih =>
    simp only [decimal_core]
    split
    · simp
    · rw [ih, ih (n / 10) [digit_char (n % 10)]]
      simp

/-- Any bound above the number gives the same digits. -/
theorem decimal_core_fuel (fuel fuel' n : Nat) (acc : List Char) (h : n < fuel) (h' : n < fuel') :
    decimal_core fuel n acc = decimal_core fuel' n acc := by
  induction fuel generalizing fuel' n acc with
  | zero => omega
  | succ fuel ih =>
    cases fuel' with
    | zero => omega
    | succ fuel' =>
      simp only [decimal_core]
      split
      · rfl
      · rename_i hn
        have : n / 10 < n := Nat.div_lt_self (by omega) (by decide)
        exact ih fuel' (n / 10) _ (by omega) (by omega)

/-- A number below ten prints as its one digit. -/
theorem decimal_small (n : Nat) (h : n < 10) : decimal n = [digit_char n] := by
  have h0 : n / 10 = 0 := Nat.div_eq_of_lt h
  have h1 : n % 10 = n := Nat.mod_eq_of_lt h
  simp [decimal, decimal_core, h0, h1]

/-- A number from ten on prints as its tenth part followed by its last digit.
-/
theorem decimal_large (n : Nat) (h : 10 ≤ n) :
    decimal n = decimal (n / 10) ++ [digit_char (n % 10)] := by
  have h0 : n / 10 ≠ 0 := by
    have : 1 ≤ n / 10 := (Nat.le_div_iff_mul_le (by decide)).mpr (by omega)
    omega
  have hlt : n / 10 < n := Nat.div_lt_self (by omega) (by decide)
  have e : decimal_core (n + 1) n [] = decimal_core n (n / 10) [digit_char (n % 10)] := by
    rw [decimal_core, if_neg h0]
  unfold decimal
  rw [e, decimal_core_acc, decimal_core_fuel n (n / 10 + 1) (n / 10) [] hlt (by omega)]

/-- The number of decimal digits `%d` prints. -/
theorem decimal_length (n : Nat) : (decimal n).length = Nat.log 10 n + 1 := by
  induction n using Nat.strong_induction_on with
  | _ n ih =>
    by_cases h : n < 10
    · rw [decimal_small n h, Nat.log_of_lt h]; rfl
    · have h10 : 10 ≤ n := by omega
      rw [decimal_large n h10, List.length_append, ih (n / 10) (Nat.div_lt_self (by omega) (by decide)),
        Nat.log_of_one_lt_of_le (by decide) h10]
      rfl

/-- Text without `%` at the start of a format is copied as it stands. -/
theorem sprintf_text_copied (pre rest : List Char) (args : List PrintfArg) (h : '%' ∉ pre) :
    sprintf_from .text (pre ++ rest) args =
      (sprintf_from .text rest args).map (fun out => pre ++ out) := by
  induction pre with
  | nil => simp
  | cons c pre ih =>
    simp only [List.mem_cons, not_or] at h
    have hc : c ≠ '%' := fun e => h.1 e.symm
    rw [List.cons_append, sprintf_from, if_neg hc, ih h.2, Option.map_map]
    rfl

/-- After a `%`, the decimal digits of a positive number are read as the field
width. -/
theorem sprintf_width_digits (zero : Bool) (m : Nat) (hm : 0 < m) (tail : List Char)
    (args : List PrintfArg) :
    sprintf_from (.flags zero) (decimal m ++ tail) args =
      sprintf_from (.width zero m) tail args := by
  induction m using Nat.strong_induction_on generalizing tail with
  | _ m ih =>
    by_cases h : m < 10
    · rw [decimal_small m h]
      obtain ⟨h1, h2, h3⟩ := digit_char_ne m
      simp only [List.singleton_append, sprintf_from, if_neg h1, if_neg h2, if_neg h3,
        if_neg (digit_char_ne_zero m hm), digit_value_digit_char m h, List.append_eq,
        List.nil_append]
    · have h10 : 10 ≤ m := by omega
      have hdiv : 0 < m / 10 := (Nat.le_div_iff_mul_le (by decide)).mpr (by omega)
      rw [decimal_large m h10, List.append_assoc,
        ih (m / 10) (Nat.div_lt_self (by omega) (by decide)) hdiv]
      obtain ⟨-, h2, -⟩ := digit_char_ne (m % 10)
      simp only [List.singleton_append, sprintf_from, if_neg h2,
        digit_value_digit_char (m % 10) (Nat.mod_lt _ (by decide)), Nat.div_add_mod' m 10,
        List.append_eq, List.nil_append]

/-- The template of line 111, cut before its first `%`. -/
theorem template_template_eq :
    template_template = "seed_00001/Scene.cellbin.".toList ++ "%%0%dd.dat".toList := by
  decide

/-- Line 113: the file template made from the width. -/
theorem sprintf_file_template (n : Nat) :
    sprintf template_template [.int n] =
      some ("seed_00001/Scene.cellbin.%0".toList ++ decimal n ++ "d.dat".toList) := by
  rw [sprintf, template_template_eq, sprintf_text_copied _ _ _ (by decide)]
  simp [sprintf_from]

/-- Line 117: the full template is the directory, a slash and the file
template. -/
theorem sprintf_f_template (viz_dir file_template : CString) :
    sprintf "%s/%s".toList [.str viz_dir, .str file_template] =
      some (viz_dir ++ '/' :: file_template) := by
  have e : "%s/%s".toList = ['%', 's', '/', '%', 's'] := by decide
  simp [sprintf, e, sprintf_from]

/-- Line 133: for a directory without `%`, the file name made from the full
template and the iteration. -/
theorem sprintf_sim_step_mol_name (viz_dir : CString) (width iteration : Nat)
    (hviz : '%' ∉ viz_dir) (hw : 0 < width) :
    sprintf (viz_dir ++ '/' ::
        ("seed_00001/Scene.cellbin.%0".toList ++ decimal width ++ "d.dat".toList))
      [.int iteration] = some (file_name viz_dir width iteration) := by
  have e : viz_dir ++ '/' ::
        ("seed_00001/Scene.cellbin.%0".toList ++ decimal width ++ "d.dat".toList)
      = (viz_dir ++ "/seed_00001/Scene.cellbin.".toList)
          ++ ('%' :: '0' :: (decimal width ++ "d.dat".toList)) := by
    have e1 : "seed_00001/Scene.cellbin.%0".toList
        = "seed_00001/Scene.cellbin.".toList ++ ['%', '0'] := by decide
    have e2 : "/seed_00001/Scene.cellbin.".toList
        = '/' :: "seed_00001/Scene.cellbin.".toList := by decide
    rw [e1, e2]
    simp
  have hpre : '%' ∉ viz_dir ++ "/seed_00001/Scene.cellbin.".toList := by
    rw [List.mem_append, not_or]
    exact ⟨hviz, by decide⟩
  have hdat : "d.dat".toList = 'd' :: ".dat".toList := by decide
  have htail : sprintf_from .text ".dat".toList [] = some ".dat".toList := by decide
  rw [sprintf, e, sprintf_text_copied _ _ _ hpre]
  have hflag : sprintf_from .text ('%' :: '0' :: (decimal width ++ "d.dat".toList))
      [.int iteration] = sprintf_from (.flags true) (decimal width ++ "d.dat".toList)
        [.int iteration] := by
    simp [sprintf_from]
  rw [hflag, sprintf_width_digits true width hw, hdat]
  unfold file_name
  generalize ".dat".toList = suffix at htail ⊢
  rw [sprintf_from, if_pos rfl]
  simp only [htail, Option.map_some', List.append_assoc]

/-- Line 76: the directory of the trajectory files. -/
theorem join_path_viz_data (proj_path : Option CString) :
    join_path proj_path '/' (some "viz_data".toList) = some (some (viz_dir_of proj_path)) := by
  have e : "viz_data".toList = 'v' :: "iz_data".toList := by decide
  have e2 : "/viz_data".toList = '/' :: 'v' :: "iz_data".toList := by decide
  rcases proj_path with _ | _ | ⟨a, s⟩ <;> simp [join_path, viz_dir_of, e, e2]

/-- Joining any path with a string that is not empty is defined. -/
theorem join_path_literal_defined (p1 : Option CString) (c : Char) (s2 : CString) :
    ∃ r, join_path p1 '/' (some (c :: s2)) = some r := by
  rcases p1 with _ | _ | ⟨a, s⟩ <;> simp [join_path]

/-- The directory made from a project path without `%` holds no `%`. -/
theorem viz_dir_format_free (proj_path : Option CString) (h : format_free proj_path) :
    '%' ∉ viz_dir_of proj_path := by
  rcases proj_path with _ | _ | ⟨a, s⟩
  · decide
  · decide
  · have hs : '%' ∉ a :: s := h
    simp only [viz_dir_of, List.mem_append, not_or]
    exact ⟨hs, by decide⟩

/-- The width of line 109 is at least 1. -/
theorem name_width_pos (n : Nat) : 0 < name_width n := by
  unfold name_width; omega

/-- Line 109 for an iteration count below `INT_MAX`. -/
theorem ndigits_eq_some (n : Nat) (h : n < INT_MAX) : ndigits n = some (name_width n) := by
  unfold ndigits
  rw [if_pos h]

/-- Line 109 has no defined result from `INT_MAX` on. -/
theorem ndigits_eq_none (n : Nat) (h : INT_MAX ≤ n) : ndigits n = none := by
  unfold ndigits
  rw [if_neg (Nat.not_lt.mpr h)]

/-- The iteration loop from iteration `a` on, when every iteration has a file
name and its file opens: the files of `n` iterations and the state after `n`
passes. -/
theorem iteration_loop_range' (P : Platform R G) (reg : MapStore Nat) (time_step : R)
    (f_template : CString) (namef : Nat → CString)
    (hname : ∀ i, sprintf f_template [.int i] = some (namef i))
    (n a : Nat) (hopen : ∀ i, a ≤ i → i < a + n → P.fopen (namef i) = true)
    (objs : Objects R) (rng : G) :
    iteration_loop P reg time_step f_template (List.range' a n) objs rng =
      some ((List.range n).map (fun j =>
          (namef (a + j),
            int32_bytes 1 ++
              (species_pass P time_step reg.values
                (state_after P time_step reg.values j (objs, rng)).1
                (state_after P time_step reg.values j (objs, rng)).2).1)),
        (state_after P time_step reg.values n (objs, rng)).1,
        (state_after P time_step reg.values n (objs, rng)).2) := by
  induction n generalizing a objs rng with
  | zero => simp [iteration_loop, state_after]
  | succ n ih =>
    rw [List.range'_succ, iteration_loop]
    simp only [hname, hopen a (Nat.le_refl a) (by omega), if_true,
      write_iteration_eq P reg time_step,
      ih (a + 1) (fun i h1 h2 => hopen i (by omega) (by omega))]
    rw [List.range_succ_eq_map]
    simp only [List.map_cons, List.map_map, state_after, Nat.add_zero, Option.some.injEq,
      Prod.mk.injEq, List.cons.injEq, true_and, and_true]
    apply List.map_congr_left
    intro j _
    simp only [Function.comp, state_after, Prod.mk.injEq, and_true]
    congr 1
    omega

/-- The whole run, file by file: with a project path without `%`, an
iteration count below `INT_MAX` and every file opening, `run_simulation` has
a result; it wrote one file for each iteration from 0 to `num_iterations`,
named by `file_name` and filled by the pass that starts from the state at the
start of that iteration. -/
theorem run_simulation_eq (P : Platform R G) (sim : MCellSimulation R)
    (proj_path : Option CString) (hpath : format_free proj_path)
    (hN : sim.num_iterations < INT_MAX)
    (hopen : ∀ i, i ≤ sim.num_iterations →
      P.fopen (file_name (viz_dir_of proj_path) (name_width sim.num_iterations) i) = true) :
    run_simulation P sim proj_path =
      some
        { files := (List.range (sim.num_iterations + 1)).map (fun i =>
            (file_name (viz_dir_of proj_path) (name_width sim.num_iterations) i,
              int32_bytes 1 ++
                (species_pass P sim.time_step sim.molecule_species.values
                  (state_at P sim i).1 (state_at P sim i).2).1))
          objects := (state_at P sim (sim.num_iterations + 1)).1 } := by
  have e : "react_data".toList = 'r' :: "eact_data".toList := by decide
  have e' : "seed_00001".toList = 's' :: "eed_00001".toList := by decide
  obtain ⟨r1, h1⟩ := join_path_literal_defined proj_path 'r' "eact_data".toList
  obtain ⟨r2, h2⟩ := join_path_literal_defined (some (viz_dir_of proj_path)) 's' "eed_00001".toList
  unfold run_simulation
  rw [e, h1, join_path_viz_data]
  simp only []
  rw [e', h2]
  simp only [ndigits_eq_some _ hN, sprintf_file_template, sprintf_f_template]
  rw [List.range_eq_range',
    iteration_loop_range' P sim.molecule_species sim.time_step _
      (file_name (viz_dir_of proj_path) (name_width sim.num_iterations))
      (fun i => sprintf_sim_step_mol_name _ _ i (viz_dir_format_free proj_path hpath)
        (name_width_pos _)) _ 0 (fun i _ h => hopen i (by omega))]
  simp only [Nat.zero_add, state_at, List.range_eq_range']

/-- Wrapping to 32 bits does not change the four bytes written. -/
theorem int32_bytes_wrap (v : Int) : int32_bytes (wrap_int32 v) = int32_bytes v := by
  unfold int32_bytes wrap_int32
  congr 2
  omega

/-- The coordinate bytes of a list of instances are the bytes of its flattened
float patterns. -/
theorem float_values_bytes (P : Platform R G) (mols : List (MCellMoleculeInstance R)) :
    mols.flatMap (fun mol => float_bytes P mol.x ++ float_bytes P mol.y ++ float_bytes P mol.z)
      = (mols.flatMap (fun mol =>
          [P.to_float mol.x % 4294967296, P.to_float mol.y % 4294967296,
            P.to_float mol.z % 4294967296])).flatMap le32 := by
  induction mols with
  | nil => rfl
  | cons mol rest ih =>
    rw [List.flatMap_cons, ih]
    simp only [List.flatMap_cons, List.flatMap_append, float_bytes, List.flatMap_nil,
      List.append_nil, List.append_assoc]

/-- Three float values for every instance. -/
theorem float_values_length (P : Platform R G) (mols : List (MCellMoleculeInstance R)) :
    (mols.flatMap (fun mol =>
          [P.to_float mol.x % 4294967296, P.to_float mol.y % 4294967296,
            P.to_float mol.z % 4294967296])).length = 3 * mols.length := by
  induction mols with
  | nil => rfl
  | cons mol rest ih =>
    simp only [List.flatMap_cons, List.length_append, ih, List.length_cons, List.length_nil]
    omega

/-- The bytes written for a species object whose count is the length of its
list are the encoding of the block the spec describes. -/
theorem species_bytes_eq_encode (P : Platform R G) (sp : MCellMoleculeSpecies R)
    (hinv : sp.num_instances = sp.instance_list.length) :
    species_bytes P sp = encode_block (block_of P sp) := by
  simp only [species_bytes, encode_block, block_of, int32_bytes_wrap, hinv, float_values_bytes]

/-- The block of a species with a name of at most 255 bytes and fewer than 2^31
/ 3 instances fits the layout. -/
theorem block_of_fits (P : Platform R G) (sp : MCellMoleculeSpecies R)
    (hname : sp.name.length ≤ 255) (hcount : 3 * sp.instance_list.length < 2147483648) :
    (block_of P sp).fits := by
  refine ⟨?_, rfl, ?_, ?_, ?_, ?_, ?_⟩
  · show sp.name.length < 256
    omega
  · show (sp.type_code % 256).toNat < 256
    omega
  · show (0 : Int) ≤ 3 * (sp.instance_list.length : Int)
    omega
  · show 3 * (sp.instance_list.length : Int) < 2147483648
    omega
  · show ((List.flatMap _ _).length : Int) = 3 * (sp.instance_list.length : Int)
    rw [float_values_length]
    push_cast
    rfl
  · intro v hv
    simp only [block_of, List.mem_flatMap, List.mem_cons, List.mem_singleton,
      List.not_mem_nil, or_false] at hv
    obtain ⟨mol, -, h | h | h⟩ := hv <;> subst h <;> exact Nat.mod_lt _ (by decide)

/-- C2 (binary layout, amended): for a registry that holds no species object
twice, whose species have a count equal to the length of their instance list,
a name of at most 255 bytes and fewer than 2^31 / 3 instances, the bytes one
iteration writes are `int32(1)` followed, for each species in registry order,
by the encoding of the block the spec describes (`block_of`); every block
fits the layout, so `name_len` name bytes follow `name_len` and
`total_values = 3 × count` float values follow `total_values`; a species
without instances has a block with `total_values = 0` and no values. -/
theorem binary_layout (P : Platform R G) (molecule_species : MapStore Nat) (time_step : R)
    (objs : Objects R) (rng : G)
    (hdistinct : molecule_species.values.Nodup)
    (hinv : ∀ p ∈ molecule_species.values,
      (objs p).num_instances = (objs p).instance_list.length)
    (hname : ∀ p ∈ molecule_species.values, (objs p).name.length ≤ 255)
    (hcount : ∀ p ∈ molecule_species.values,
      3 * (objs p).instance_list.length < 2147483648) :
    ∃ r, write_iteration P molecule_species time_step objs rng = some r
      ∧ r.1 = encode_file (blocks_of P molecule_species objs)
      ∧ (∀ b ∈ blocks_of P molecule_species objs, b.fits)
      ∧ ∀ p ∈ molecule_species.values, (objs p).instance_list = [] →
          (block_of P (objs p)).total_values = 0 ∧ (block_of P (objs p)).values = [] := by
  rw [write_iteration_eq P molecule_species time_step objs rng]
  refine ⟨_, rfl, ?_, ?_, ?_⟩
  · dsimp only
    rewrite [species_pass_written P time_step _ hdistinct]
    unfold encode_file blocks_of
    rewrite [List.flatMap_map]
    apply congrArg
    apply List.flatMap_congr
    intro p hp
    exact species_bytes_eq_encode P (objs p) (hinv p hp)
  · intro b hb
    simp only [blocks_of, List.mem_map] at hb
    obtain ⟨p, hp, rfl⟩ := hb
    exact block_of_fits P (objs p) (hname p hp) (hcount p hp)
  · intro p _ hempty
    simp [block_of, hempty]

/-- The layout theorem at the example simulation just after the release: the
file of iteration 0, byte by byte. -/
theorem binary_layout_witness :
    example_sim.molecule_species.values.Nodup
    ∧ ∃ r, write_iteration fixed_platform example_sim.molecule_species example_sim.time_step
          (release_loop example_sim.molecule_release_sites example_sim.objects) 12345 = some r
        ∧ r.1 = encode_file (blocks_of fixed_platform example_sim.molecule_species
            (release_loop example_sim.molecule_release_sites example_sim.objects))
        ∧ r.1 = [1, 0, 0, 0,
            1, 65, 0, 6, 0, 0, 0,
              0, 0, 128, 63, 0, 0, 0, 64, 0, 0, 64, 64,
              0, 0, 128, 63, 0, 0, 0, 64, 0, 0, 64, 64,
            1, 66, 1, 3, 0, 0, 0,
              0, 0, 0, 63, 0, 0, 0, 0, 0, 0, 32, 65] := by
  have hd : example_sim.molecule_species.values.Nodup := by decide
  obtain ⟨r, hr, hbytes, -, -⟩ :=
    binary_layout fixed_platform example_sim.molecule_species example_sim.time_step
      (release_loop example_sim.molecule_release_sites example_sim.objects) 12345 hd
      (by decide) (by decide) (by decide)
  refine ⟨hd, r, hr, hbytes, ?_⟩
  rw [hbytes]
  decide

set_option maxRecDepth 20000 in
/-- C2 fails for a name of 256 bytes: the `name_len` byte written is 0, all
256 name bytes follow it, and the block the claim describes does not fit the
layout. -/
theorem binary_layout_counterexample :
    ∃ r, write_iteration fixed_platform long_name_sim.molecule_species long_name_sim.time_step
          long_name_sim.objects 12345 = some r
      ∧ r.1 = [1, 0, 0, 0] ++ [0] ++ List.replicate 256 65 ++ [0] ++ [0, 0, 0, 0]
      ∧ ¬ (block_of fixed_platform (long_name_sim.objects 0)).fits := by
  refine ⟨_, write_iteration_eq _ _ _ _ _, ?_, ?_⟩
  · decide
  · intro h
    exact absurd h.1 (by decide)

/-- Passes change nothing of an object but the positions in its instance list. -/
theorem state_after_fields (P : Platform R G) (time_step : R) (ps : List Nat) (n : Nat)
    (s : Objects R × G) (q : Nat) :
    ((state_after P time_step ps n s).1 q).name = (s.1 q).name
    ∧ ((state_after P time_step ps n s).1 q).type_code = (s.1 q).type_code
    ∧ ((state_after P time_step ps n s).1 q).diffusion_constant = (s.1 q).diffusion_constant
    ∧ ((state_after P time_step ps n s).1 q).num_instances = (s.1 q).num_instances
    ∧ ((state_after P time_step ps n s).1 q).instance_list.length
        = (s.1 q).instance_list.length := by
  induction n generalizing s with
  | zero => simp [state_after]
  | succ n ih =>
    rw [state_after]
    have h := ih (species_pass P time_step ps s.1 s.2).2
    have f := species_pass_fields P time_step ps s.1 s.2 q
    exact ⟨h.1.trans f.1, h.2.1.trans f.2.1, h.2.2.1.trans f.2.2.1,
      h.2.2.2.1.trans f.2.2.2.1, h.2.2.2.2.trans f.2.2.2.2⟩

/-- The objects at the start of iteration 0 are those the release loop left. -/
theorem objects_at_zero (P : Platform R G) (sim : MCellSimulation R) :
    objects_at P sim 0 = release_loop sim.molecule_release_sites sim.objects := rfl

/-- The fields of an object at the start of an iteration, from those before the
run. -/
theorem objects_at_fields (P : Platform R G) (sim : MCellSimulation R) (i q : Nat) :
    (objects_at P sim i q).name = (sim.objects q).name
    ∧ (objects_at P sim i q).type_code = (sim.objects q).type_code
    ∧ (objects_at P sim i q).diffusion_constant = (sim.objects q).diffusion_constant
    ∧ (objects_at P sim i q).num_instances
        = (sim.objects q).num_instances + total_quantity (sites_of q sim.molecule_release_sites)
    ∧ (objects_at P sim i q).instance_list.length
        = total_quantity (sites_of q sim.molecule_release_sites)
            + (sim.objects q).instance_list.length := by
  have h := state_after_fields P sim.time_step sim.molecule_species.values i
    (release_loop sim.molecule_release_sites sim.objects, P.mrng 12345) q
  have r := release_loop_at sim.molecule_release_sites sim.objects q
  simp only [objects_at, state_at]
  dsimp only at h
  rw [h.1, h.2.1, h.2.2.1, h.2.2.2.1, h.2.2.2.2, r]
  simp [released_instances_length]

/-- Summing a quantity over a list of distinct addresses, counted at one of
them only, gives the quantity. -/
theorem sum_ite_eq_of_mem (ps : List Nat) (a n : Nat) (hps : ps.Nodup) (ha : a ∈ ps) :
    (ps.map (fun p => if a = p then n else 0)).sum = n := by
  induction ps with
  | nil => simp at ha
  | cons p ps ih =>
    rw [List.nodup_cons] at hps
    simp only [List.map_cons, List.sum_cons]
    by_cases hap : a = p
    · subst hap
      have hz : (ps.map (fun p => if a = p then n else 0)).sum = 0 := by
        apply List.sum_eq_zero
        intro x hx
        simp only [List.mem_map] at hx
        obtain ⟨p, hp, rfl⟩ := hx
        have : a ≠ p := fun e => hps.1 (e ▸ hp)
        simp [this]
      simp [hz]
    · have ha' : a ∈ ps := by
        rcases List.mem_cons.mp ha with h | h
        · exact absurd h hap
        · exact h
      simp [hap, ih hps.2 ha']

/-- The quantities of the sites, summed species by species over a list of
addresses that holds every target once, add up to the sum over all sites. -/
theorem total_quantity_by_species (ps : List Nat) (sites : List (MCellReleaseSite R))
    (hps : ps.Nodup) (hsites : ∀ site ∈ sites, site.molecule_species ∈ ps) :
    (ps.map (fun p => total_quantity (sites_of p sites))).sum = total_quantity sites := by
  induction sites with
  | nil => simp [sites_of, total_quantity]
  | cons site rest ih =>
    have hrest := ih (fun s hs => hsites s (List.mem_cons_of_mem _ hs))
    have hsite := hsites site (List.mem_cons_self _ _)
    have e : ∀ p, total_quantity (sites_of p (site :: rest))
        = (if site.molecule_species = p then site.quantity else 0)
          + total_quantity (sites_of p rest) := by
      intro p
      by_cases h : site.molecule_species = p <;>
        simp [sites_of, total_quantity, List.filter_cons, h]
    simp only [e, List.sum_map_add, hrest,
      sum_ite_eq_of_mem ps site.molecule_species site.quantity hps hsite]
    simp [total_quantity]

/-- The files of a run one by one: with a project path without `%`, an
iteration count below `INT_MAX` and every file opening, the run has a result
with `num_iterations + 1` files, and the file number `i` has the name
`file_name` gives iteration `i` and the bytes the pass of iteration `i` writes. -/
theorem run_simulation_files (P : Platform R G) (sim : MCellSimulation R)
    (proj_path : Option CString) (hpath : format_free proj_path)
    (hN : sim.num_iterations < INT_MAX)
    (hopen : ∀ i, i ≤ sim.num_iterations →
      P.fopen (file_name (viz_dir_of proj_path) (name_width sim.num_iterations) i) = true) :
    ∃ r, run_simulation P sim proj_path = some r
      ∧ r.files.length = sim.num_iterations + 1
      ∧ ∀ i, i ≤ sim.num_iterations →
          r.files.get? i = some
            (file_name (viz_dir_of proj_path) (name_width sim.num_iterations) i,
              int32_bytes 1 ++
                (species_pass P sim.time_step sim.molecule_species.values
                  (state_at P sim i).1 (state_at P sim i).2).1) := by
  refine ⟨_, run_simulation_eq P sim proj_path hpath hN hopen, ?_, ?_⟩
  · simp
  · intro i hi
    simp only [List.get?_eq_getElem?, List.getElem?_map]
    rw [List.getElem?_range (by omega)]
    rfl

/-- With no species object registered twice, the file of iteration `i` holds,
after the marker, the bytes of every registered species object as it is at
the start of iteration `i`. -/
theorem run_simulation_snapshots (P : Platform R G) (sim : MCellSimulation R)
    (proj_path : Option CString) (hpath : format_free proj_path)
    (hN : sim.num_iterations < INT_MAX)
    (hopen : ∀ i, i ≤ sim.num_iterations →
      P.fopen (file_name (viz_dir_of proj_path) (name_width sim.num_iterations) i) = true)
    (hdistinct : sim.molecule_species.values.Nodup) :
    ∃ r, run_simulation P sim proj_path = some r
      ∧ r.files.length = sim.num_iterations + 1
      ∧ ∀ i, i ≤ sim.num_iterations →
          r.files.get? i = some
            (file_name (viz_dir_of proj_path) (name_width sim.num_iterations) i,
              int32_bytes 1 ++ sim.molecule_species.values.flatMap
                (fun p => species_bytes P (objects_at P sim i p))) := by
  obtain ⟨r, hr, hlen, hfiles⟩ := run_simulation_files P sim proj_path hpath hN hopen
  refine ⟨r, hr, hlen, fun i hi => ?_⟩
  rw [hfiles i hi, species_pass_written P sim.time_step _ hdistinct]
  rfl

/-- The example path holds no `%`. -/
theorem example_path_format_free : format_free example_path := by
  decide

/-- C4 (conservation, amended): in every run, a pass changes neither the
count nor the number of instances of any species object. In a run that is
defined (project path without `%`, iteration count below `INT_MAX`, every
file opening), whose registry holds no species object twice, whose release
sites all target registered species, whose registered species start without
instances and with count 0, and which releases fewer than 2^31 / 3
molecules, the file of every iteration `i` from 0 to `num_iterations` is the
encoding of blocks whose `total_values` are `int32` values and whose
`total_values / 3` add up to the number of molecules the release step
created. -/
theorem conservation (P : Platform R G) (sim : MCellSimulation R)
    (proj_path : Option CString) :
    (∀ i p, (objects_at P sim i p).num_instances
          = (release_loop sim.molecule_release_sites sim.objects p).num_instances
        ∧ (objects_at P sim i p).instance_list.length
          = (release_loop sim.molecule_release_sites sim.objects p).instance_list.length)
    ∧ (format_free proj_path → sim.num_iterations < INT_MAX →
        (∀ i, i ≤ sim.num_iterations →
          P.fopen (file_name (viz_dir_of proj_path) (name_width sim.num_iterations) i)
            = true) →
        sim.molecule_species.values.Nodup →
        (∀ site ∈ sim.molecule_release_sites,
          site.molecule_species ∈ sim.molecule_species.values) →
        (∀ p ∈ sim.molecule_species.values,
          (sim.objects p).instance_list = [] ∧ (sim.objects p).num_instances = 0) →
        3 * total_quantity sim.molecule_release_sites < 2147483648 →
        ∃ r, run_simulation P sim proj_path = some r
          ∧ r.files.length = sim.num_iterations + 1
          ∧ ∀ i, i ≤ sim.num_iterations →
              (r.files.get? i).map Prod.snd
                = some (encode_file (blocks_of P sim.molecule_species (objects_at P sim i)))
              ∧ (∀ b ∈ blocks_of P sim.molecule_species (objects_at P sim i),
                  0 ≤ b.total_values ∧ b.total_values < 2147483648)
              ∧ ((blocks_of P sim.molecule_species (objects_at P sim i)).map
                  (fun b => b.total_values / 3)).sum
                  = (total_quantity sim.molecule_release_sites : Int)) := by
  refine ⟨fun i p => ?_, fun hpath hN hopen hdistinct hsites hempty hcount => ?_⟩
  · have f := objects_at_fields P sim i p
    have f0 := objects_at_fields P sim 0 p
    rw [objects_at_zero] at f0
    exact ⟨f.2.2.2.1.trans f0.2.2.2.1.symm, f.2.2.2.2.trans f0.2.2.2.2.symm⟩
  obtain ⟨r, hr, hlen, hfiles⟩ :=
    run_simulation_snapshots P sim proj_path hpath hN hopen hdistinct
  have hnum : ∀ i, ∀ p ∈ sim.molecule_species.values,
      (objects_at P sim i p).num_instances
        = total_quantity (sites_of p sim.molecule_release_sites)
      ∧ (objects_at P sim i p).instance_list.length
        = total_quantity (sites_of p sim.molecule_release_sites) := by
    intro i p hp
    have f := objects_at_fields P sim i p
    rw [(hempty p hp).1, (hempty p hp).2] at f
    exact ⟨by rw [f.2.2.2.1]; simp, by rw [f.2.2.2.2]; simp⟩
  have hsum := total_quantity_by_species sim.molecule_species.values
    sim.molecule_release_sites hdistinct hsites
  have hle : ∀ p ∈ sim.molecule_species.values,
      total_quantity (sites_of p sim.molecule_release_sites)
        ≤ total_quantity sim.molecule_release_sites := by
    intro p hp
    rw [← hsum]
    exact List.single_le_sum (fun _ _ => Nat.zero_le _) _
      (List.mem_map.mpr ⟨p, hp, rfl⟩)
  refine ⟨r, hr, hlen, fun i hi => ⟨?_, ?_, ?_⟩⟩
  · rw [hfiles i hi]
    simp only [Option.map_some', Option.some.injEq]
    unfold encode_file blocks_of
    rewrite [List.flatMap_map]
    apply congrArg
    apply List.flatMap_congr
    intro p hp
    exact species_bytes_eq_encode P _ ((hnum i p hp).1.trans (hnum i p hp).2.symm)
  · intro b hb
    simp only [blocks_of, List.mem_map] at hb
    obtain ⟨p, hp, rfl⟩ := hb
    have h1 := (hnum i p hp).2
    have h2 := hle p hp
    simp only [block_of]
    omega
  · simp only [blocks_of, List.map_map, Function.comp_def, block_of]
    rw [← hsum]
    have e : ∀ p ∈ sim.molecule_species.values,
        (3 * ((objects_at P sim i p).instance_list.length : Int)) / 3
          = ((total_quantity (sites_of p sim.molecule_release_sites) : Nat) : Int) := by
      intro p hp
      rw [(hnum i p hp).2]
      omega
    rw [List.map_congr_left e]
    induction sim.molecule_species.values with
    | nil => rfl
    | cons p ps ih => simp only [List.map_cons, List.sum_cons, ih]; push_cast; rfl

/-- Conservation at the example simulation: three files, each with blocks
whose `total_values / 3` add up to the three molecules released. -/
theorem conservation_witness :
    format_free example_path
    ∧ example_sim.num_iterations < INT_MAX
    ∧ example_sim.molecule_species.values.Nodup
    ∧ (∀ site ∈ example_sim.molecule_release_sites,
        site.molecule_species ∈ example_sim.molecule_species.values)
    ∧ 3 * total_quantity example_sim.molecule_release_sites < 2147483648
    ∧ ∃ r, run_simulation fixed_platform example_sim example_path = some r
        ∧ r.files.length = 3
        ∧ ∀ i, i ≤ 2 →
          ((blocks_of fixed_platform example_sim.molecule_species
              (objects_at fixed_platform example_sim i)).map
            (fun b => b.total_values / 3)).sum = 3 := by
  have hN : example_sim.num_iterations < INT_MAX := by decide
  have hd : example_sim.molecule_species.values.Nodup := by decide
  have hs : ∀ site ∈ example_sim.molecule_release_sites,
      site.molecule_species ∈ example_sim.molecule_species.values := by decide
  have hc : 3 * total_quantity example_sim.molecule_release_sites < 2147483648 := by decide
  obtain ⟨r, hr, hlen, h⟩ := (conservation fixed_platform example_sim example_path).2
    example_path_format_free hN (fun _ _ => rfl) hd hs (by decide) hc
  exact ⟨example_path_format_free, hN, hd, hs, hc, r, hr, hlen, fun i hi => (h i hi).2.2⟩

set_option maxRecDepth 20000 in
/-- C4 fails for a release site whose species is not registered: the release
step creates one molecule, for the species object at address 5, and the file
of iteration 0 holds the blocks of "A" and "B" with `total_values` 0 each. -/
theorem conservation_counterexample :
    total_quantity stray_site_sim.molecule_release_sites = 1
    ∧ (release_loop stray_site_sim.molecule_release_sites
        stray_site_sim.objects 5).instance_list.length = 1
    ∧ stray_site_sim.molecule_species.values = [0, 1]
    ∧ ((blocks_of fixed_platform stray_site_sim.molecule_species
          (objects_at fixed_platform stray_site_sim 0)).map
        (fun b => b.total_values / 3)).sum = 0
    ∧ ∃ r, run_simulation fixed_platform stray_site_sim example_path = some r
      ∧ (r.files.get? 0).map Prod.snd = some
          [1, 0, 0, 0,
            1, 65, 0, 0, 0, 0, 0,
            1, 66, 1, 0, 0, 0, 0] := by
  obtain ⟨r, hr, -, hfiles⟩ := run_simulation_snapshots fixed_platform stray_site_sim
    example_path example_path_format_free (by decide) (fun _ _ => rfl) (by decide)
  refine ⟨by decide, by decide, by decide, by decide, r, hr, ?_⟩
  rw [hfiles 0 (by decide)]
  decide

/-- One more pass, taken last. -/
theorem state_after_succ (P : Platform R G) (time_step : R) (ps : List Nat) (n : Nat)
    (s : Objects R × G) :
    state_after P time_step ps (n + 1) s =
      (species_pass P time_step ps (state_after P time_step ps n s).1
        (state_after P time_step ps n s).2).2 := by
  induction n generalizing s with
  | zero => rfl
  | succ n ih => rw [state_after, ih]; rfl

/-- The state at the start of the next iteration is the state after the pass of
this one. -/
theorem state_at_succ (P : Platform R G) (sim : MCellSimulation R) (i : Nat) :
    state_at P sim (i + 1) =
      (species_pass P sim.time_step sim.molecule_species.values (state_at P sim i).1
        (state_at P sim i).2).2 := by
  unfold state_at
  exact state_after_succ _ _ _ _ _

/-- C5 (snapshot precedes diffusion, amended): in a run that is defined
(project path without `%`, iteration count below `INT_MAX`, every file
opening) and whose registry holds no species object twice, the file of
iteration `i` holds for every registered
species the bytes of the species object as it is at the start of iteration
`i` (`species_bytes` writes the positions of its instance list); the objects
at the start of iteration 0 are those the release loop left, and the objects
at the start of iteration `i + 1` are those of iteration `i` displaced by
`simulate_species`, so the displacement of an iteration comes after its
snapshot. For a species that started empty, the positions in the file of
iteration 0 are the release points of `released_instances`, each as a float. -/
theorem snapshot_precedes_diffusion (P : Platform R G) (sim : MCellSimulation R)
    (proj_path : Option CString) (hpath : format_free proj_path)
    (hN : sim.num_iterations < INT_MAX)
    (hopen : ∀ i, i ≤ sim.num_iterations →
      P.fopen (file_name (viz_dir_of proj_path) (name_width sim.num_iterations) i) = true)
    (hdistinct : sim.molecule_species.values.Nodup) :
    ∃ r, run_simulation P sim proj_path = some r
      ∧ (∀ i, i ≤ sim.num_iterations →
          (r.files.get? i).map Prod.snd = some
            (int32_bytes 1 ++ sim.molecule_species.values.flatMap
              (fun p => species_bytes P (objects_at P sim i p))))
      ∧ objects_at P sim 0 = release_loop sim.molecule_release_sites sim.objects
      ∧ (∀ i, ∀ p ∈ sim.molecule_species.values,
          objects_at P sim (i + 1) p =
            (simulate_species P sim.time_step (objects_at P sim i p)
              (rng_after P (state_at P sim i).2
                (3 * particles_before (objects_at P sim i) sim.molecule_species.values p))).2.1)
      ∧ ∀ p ∈ sim.molecule_species.values, (sim.objects p).instance_list = [] →
          (objects_at P sim 0 p).instance_list
            = released_instances p sim.molecule_release_sites := by
  obtain ⟨r, hr, -, hfiles⟩ :=
    run_simulation_snapshots P sim proj_path hpath hN hopen hdistinct
  refine ⟨r, hr, fun i hi => ?_, rfl, fun i p hp => ?_, fun p _ hempty => ?_⟩
  · rw [hfiles i hi]; rfl
  · simp only [objects_at]
    rw [state_at_succ]
    exact species_pass_at P sim.time_step _ hdistinct _ _ p hp
  · rw [objects_at_zero, release_loop_at, hempty, List.append_nil]

set_option maxRecDepth 20000 in
/-- The example run: the file of iteration 0 holds the release points
(1, 2, 3), (1, 2, 3) and (0.5, 0, 10) as floats, and the molecules of "A" have
moved only at the start of iteration 1. -/
theorem snapshot_precedes_diffusion_witness :
    format_free example_path ∧ example_sim.num_iterations < INT_MAX
    ∧ example_sim.molecule_species.values.Nodup
    ∧ ∃ r, run_simulation fixed_platform example_sim example_path = some r
      ∧ (r.files.get? 0).map Prod.snd = some
          [1, 0, 0, 0,
            1, 65, 0, 6, 0, 0, 0,
              0, 0, 128, 63, 0, 0, 0, 64, 0, 0, 64, 64,
              0, 0, 128, 63, 0, 0, 0, 64, 0, 0, 64, 64,
            1, 66, 1, 3, 0, 0, 0,
              0, 0, 0, 63, 0, 0, 0, 0, 0, 0, 32, 65]
      ∧ (objects_at fixed_platform example_sim 1 0).instance_list =
          [ { molecule_species := 0, x := some 99151471862576142971,
              y := some 201131370849898476039, z := some 300000000000000000000 },
            { molecule_species := 0, x := some 98868629150101523961,
              y := some 200848528137423857029, z := some 299717157287525380991 } ] := by
  have hd : example_sim.molecule_species.values.Nodup := by decide
  have hN : example_sim.num_iterations < INT_MAX := by decide
  obtain ⟨r, hr, hfiles, h0, hstep, -⟩ := snapshot_precedes_diffusion fixed_platform
    example_sim example_path example_path_format_free hN (fun _ _ => rfl) hd
  refine ⟨example_path_format_free, hN, hd, r, hr, ?_, ?_⟩
  · rw [hfiles 0 (by decide)]
    decide
  · rw [hstep 0 0 (by decide)]
    decide

set_option maxRecDepth 20000 in
/-- C5 fails for a species object registered under two names: the registry
holds the object at address 0 as "A" and as "X", one molecule is released
into it at (7, 8, 9), and the file of iteration 0 holds two blocks of it: the
first with (7, 8, 9), the second with the position after the displacement of
iteration 0, which is not the release point. -/
theorem snapshot_precedes_diffusion_counterexample :
    two_names_sim.molecule_species.keys = [[65], [88]]
    ∧ two_names_sim.molecule_species.values = [0, 0]
    ∧ (objects_at fixed_platform two_names_sim 0 0).instance_list
        = [ { molecule_species := 0, x := fixed_lit 7 0, y := fixed_lit 8 0,
              z := fixed_lit 9 0 } ]
    ∧ float_bytes fixed_platform (fixed_lit 7 0) ++ float_bytes fixed_platform (fixed_lit 8 0)
        ++ float_bytes fixed_platform (fixed_lit 9 0)
        = [0, 0, 224, 64, 0, 0, 0, 65, 0, 0, 16, 65]
    ∧ ∃ r, run_simulation fixed_platform two_names_sim example_path = some r
      ∧ (r.files.get? 0).map Prod.snd = some
          [1, 0, 0, 0,
            1, 88, 0, 3, 0, 0, 0,
              0, 0, 224, 64, 0, 0, 0, 65, 0, 0, 16, 65,
            1, 88, 0, 3, 0, 0, 0,
              125, 186, 223, 64, 87, 46, 0, 65, 0, 0, 16, 65] := by
  obtain ⟨r, hr, -, hfiles⟩ := run_simulation_files fixed_platform two_names_sim
    example_path example_path_format_free (by decide) (fun _ _ => rfl)
  refine ⟨by decide, by decide, by decide, by decide, r, hr, ?_⟩
  rw [hfiles 0 (by decide)]
  decide

/-- Leading zeros do not change the number read. -/
theorem read_decimal_zeros (k : Nat) (s : List Char) :
    (List.replicate k '0' ++ s).foldl (fun acc c => acc * 10 + (digit_value c).getD 0) 0
      = s.foldl (fun acc c => acc * 10 + (digit_value c).getD 0) 0 := by
  induction k with
  | zero => rfl
  | succ k ih =>
    rw [List.replicate_succ, List.cons_append, List.foldl_cons]
    exact ih

/-- Reading what `%d` prints gives the number back. -/
theorem read_decimal_decimal (n : Nat) : read_decimal (decimal n) = n := by
  induction n using Nat.strong_induction_on with
  | _ n ih =>
    by_cases h : n < 10
    · rw [decimal_small n h]
      simp [read_decimal, digit_value_digit_char n h]
    · have h10 : 10 ≤ n := by omega
      have := ih (n / 10) (Nat.div_lt_self (by omega) (by decide))
      unfold read_decimal at this ⊢
      rw [decimal_large n h10, List.foldl_append, this]
      simp only [List.foldl_cons, List.foldl_nil,
        digit_value_digit_char (n % 10) (Nat.mod_lt _ (by decide)), Option.getD_some]
      exact Nat.div_add_mod' n 10

/-- Reading a zero-padded number gives the number back. -/
theorem read_decimal_pad (width n : Nat) : read_decimal (pad_decimal true width n) = n := by
  have h := read_decimal_decimal n
  unfold read_decimal at h ⊢
  unfold pad_decimal
  simp only [if_true]
  rw [read_decimal_zeros, h]

/-- Different iterations have different file names. -/
theorem file_name_injective (viz_dir : CString) (width : Nat) :
    Function.Injective (file_name viz_dir width) := by
  intro i j h
  unfold file_name at h
  have h1 := List.append_cancel_right h
  have h2 := List.append_cancel_left h1
  have := congrArg read_decimal h2
  rwa [read_decimal_pad, read_decimal_pad] at this

/-- The width of line 109 is the number of decimal digits of `num_iterations + 1`. -/
theorem name_width_eq_length (n : Nat) : name_width n = (decimal (n + 1)).length := by
  rw [decimal_length, name_width, Nat.add_comm]

/-- The marker `int32(1)` is the bytes 01 00 00 00. -/
theorem int32_bytes_one : int32_bytes 1 = [1, 0, 0, 0] := by decide

/-- A run with the iteration count `INT_MAX` has no defined behaviour: line
109 adds 1 to it. -/
theorem run_simulation_int_overflow (P : Platform R G) (sim : MCellSimulation R)
    (proj_path : Option CString) (h : INT_MAX ≤ sim.num_iterations) :
    run_simulation P sim proj_path = none := by
  unfold run_simulation
  rw [ndigits_eq_none _ h]
  split
  · split <;> rfl
  · rfl

/-- A run whose first file does not open has no defined behaviour: line 140
writes to the stream NULL. -/
theorem run_simulation_fopen_null (P : Platform R G) (sim : MCellSimulation R)
    (proj_path : Option CString) (hpath : format_free proj_path)
    (hN : sim.num_iterations < INT_MAX)
    (h : P.fopen (file_name (viz_dir_of proj_path) (name_width sim.num_iterations) 0) = false) :
    run_simulation P sim proj_path = none := by
  have e : "react_data".toList = 'r' :: "eact_data".toList := by decide
  have e' : "seed_00001".toList = 's' :: "eed_00001".toList := by decide
  obtain ⟨r1, h1⟩ := join_path_literal_defined proj_path 'r' "eact_data".toList
  obtain ⟨r2, h2⟩ := join_path_literal_defined (some (viz_dir_of proj_path)) 's' "eed_00001".toList
  unfold run_simulation
  rw [e, h1, join_path_viz_data]
  simp only []
  rw [e', h2]
  simp only [ndigits_eq_some _ hN, sprintf_file_template, sprintf_f_template]
  rw [List.range_succ_eq_map, iteration_loop,
    sprintf_sim_step_mol_name _ _ 0 (viz_dir_format_free proj_path hpath) (name_width_pos _)]
  simp only [h]
  rfl

/-- A run with the project path `/tmp/%d` has no defined behaviour: line 133
uses the path as part of a format, and its `%d` takes the iteration, so that
none is left for the `%0<width>d` of the file name. -/
theorem run_simulation_format_path (P : Platform R G) (sim : MCellSimulation R) :
    run_simulation P sim (some "/tmp/%d".toList) = none := by
  by_cases hN : sim.num_iterations < INT_MAX
  · have hj1 : join_path (some "/tmp/%d".toList) '/' (some "react_data".toList)
        = some (some "/tmp/%d/react_data".toList) := by decide
    have hj2 : join_path (some "/tmp/%d".toList) '/' (some "viz_data".toList)
        = some (some "/tmp/%d/viz_data".toList) := by decide
    have hj3 : join_path (some "/tmp/%d/viz_data".toList) '/' (some "seed_00001".toList)
        = some (some "/tmp/%d/viz_data/seed_00001".toList) := by decide
    have e : "/tmp/%d/viz_data".toList ++ '/' ::
          ("seed_00001/Scene.cellbin.%0".toList
            ++ decimal (name_width sim.num_iterations) ++ "d.dat".toList)
        = "/tmp/".toList ++ ('%' :: 'd' ::
            ("/viz_data/seed_00001/Scene.cellbin.".toList ++ ('%' :: '0' ::
              (decimal (name_width sim.num_iterations) ++ "d.dat".toList)))) := by
      have e1 : "seed_00001/Scene.cellbin.%0".toList
          = "seed_00001/Scene.cellbin.".toList ++ ['%', '0'] := by decide
      have e2 : "/tmp/%d/viz_data".toList ++ '/' :: "seed_00001/Scene.cellbin.".toList
          = "/tmp/".toList ++ ('%' :: 'd' :: "/viz_data/seed_00001/Scene.cellbin.".toList) := by
        decide
      rw [e1]
      simp only [List.append_assoc, List.cons_append, List.nil_append]
      rw [← List.cons_append, ← List.append_assoc, e2]
      simp only [List.append_assoc, List.cons_append]
    have hname : sprintf ("/tmp/%d/viz_data".toList ++ '/' ::
          ("seed_00001/Scene.cellbin.%0".toList
            ++ decimal (name_width sim.num_iterations) ++ "d.dat".toList)) [.int 0] = none := by
      have hdat : "d.dat".toList = 'd' :: ".dat".toList := by decide
      rw [sprintf, e, sprintf_text_copied _ _ _ (by decide)]
      have h1 : sprintf_from .text ('%' :: 'd' ::
            ("/viz_data/seed_00001/Scene.cellbin.".toList ++ ('%' :: '0' ::
              (decimal (name_width sim.num_iterations) ++ "d.dat".toList)))) [.int 0]
          = (sprintf_from .text
              ("/viz_data/seed_00001/Scene.cellbin.".toList ++ ('%' :: '0' ::
                (decimal (name_width sim.num_iterations) ++ "d.dat".toList))) []).map
              (fun out => decimal 0 ++ out) := by
        simp [sprintf_from]
      rw [h1, sprintf_text_copied _ _ _ (by decide)]
      have h2 : sprintf_from .text ('%' :: '0' ::
            (decimal (name_width sim.num_iterations) ++ "d.dat".toList)) []
          = sprintf_from (.flags true)
              (decimal (name_width sim.num_iterations) ++ "d.dat".toList) [] := by
        simp [sprintf_from]
      rw [h2, sprintf_width_digits true _ (name_width_pos _), hdat]
      simp [sprintf_from]
    unfold run_simulation
    rw [hj1, hj2]
    simp only []
    rw [hj3]
    simp only [ndigits_eq_some _ hN, sprintf_file_template, sprintf_f_template]
    rw [List.range_succ_eq_map, iteration_loop, hname]
  · exact run_simulation_int_overflow P sim _ (Nat.le_of_not_lt hN)

/-- C6 (file count, amended): for every iteration count `N` below `INT_MAX`,
with a project path without `%` and every file of the run opening, a run
writes exactly `N + 1` files, the file of iteration `i` under the name
`file_name` gives `i`; the names are pairwise different, and every file starts
with the four bytes of `int32(1)`. -/
theorem file_count (P : Platform R G) (sim : MCellSimulation R)
    (proj_path : Option CString) (hpath : format_free proj_path)
    (hN : sim.num_iterations < INT_MAX)
    (hopen : ∀ i, i ≤ sim.num_iterations →
      P.fopen (file_name (viz_dir_of proj_path) (name_width sim.num_iterations) i) = true) :
    ∃ r, run_simulation P sim proj_path = some r
      ∧ r.files.length = sim.num_iterations + 1
      ∧ (r.files.map Prod.fst).Nodup
      ∧ (∀ i, i ≤ sim.num_iterations →
          (r.files.get? i).map Prod.fst
            = some (file_name (viz_dir_of proj_path) (name_width sim.num_iterations) i))
      ∧ ∀ f ∈ r.files, f.2.take 4 = [1, 0, 0, 0] := by
  refine ⟨_, run_simulation_eq P sim proj_path hpath hN hopen, ?_, ?_, ?_, ?_⟩
  · simp
  · simp only [List.map_map, Function.comp_def]
    exact (List.nodup_range _).map (file_name_injective _ _)
  · intro i hi
    simp only [List.get?_eq_getElem?, List.getElem?_map]
    rw [List.getElem?_range (by omega)]
    rfl
  · intro f hf
    simp only [List.mem_map] at hf
    obtain ⟨i, -, rfl⟩ := hf
    simp only [int32_bytes_one]
    rfl

/-- The example with `N = 10`: eleven files with different names, from
`Scene.cellbin.00.dat` to `Scene.cellbin.10.dat`, each starting with the marker. -/
theorem file_count_witness :
    format_free example_path
    ∧ 10 < INT_MAX
    ∧ ∃ r, run_simulation fixed_platform { example_sim with num_iterations := 10 } example_path
          = some r
      ∧ r.files.length = 11
      ∧ (r.files.map Prod.fst).Nodup
      ∧ (r.files.get? 0).map Prod.fst
          = some "/tmp/p/viz_data/seed_00001/Scene.cellbin.00.dat".toList
      ∧ (r.files.get? 10).map Prod.fst
          = some "/tmp/p/viz_data/seed_00001/Scene.cellbin.10.dat".toList
      ∧ ∀ f ∈ r.files, f.2.take 4 = [1, 0, 0, 0] := by
  obtain ⟨r, hr, hlen, hnd, hname, hmark⟩ := file_count fixed_platform
    { example_sim with num_iterations := 10 } example_path example_path_format_free
    (by decide) (fun _ _ => rfl)
  refine ⟨example_path_format_free, by decide, r, hr, hlen, hnd, ?_, ?_, hmark⟩
  · rw [hname 0 (by decide), name_width_eq_length]
    decide
  · rw [hname 10 (by decide), name_width_eq_length]
    decide

/-- C6 fails in three ways, each a run without defined behaviour and so
without its `N + 1` files: for the iteration count 2147483647, where line 109
overflows; in a file system where the files do not open, where line 140
writes to the stream NULL; and for the project path `/tmp/%d`, where line 133
uses the path as a format. -/
theorem file_count_counterexample :
    run_simulation fixed_platform { example_sim with num_iterations := 2147483647 }
        example_path = none
    ∧ run_simulation closed_platform example_sim example_path = none
    ∧ run_simulation fixed_platform example_sim (some "/tmp/%d".toList) = none := by
  exact ⟨run_simulation_int_overflow _ _ _ (by decide),
    run_simulation_fopen_null _ _ _ example_path_format_free (by decide) rfl,
    run_simulation_format_path _ _⟩

/-- A larger number has at least as many decimal digits. -/
theorem decimal_length_mono (a b : Nat) (h : a ≤ b) :
    (decimal a).length ≤ (decimal b).length := by
  rw [decimal_length, decimal_length]
  exact Nat.succ_le_succ (Nat.log_mono_right h)

/-- A number that fits the width is padded to exactly the width. -/
theorem pad_decimal_length (zero : Bool) (width n : Nat) (h : (decimal n).length ≤ width) :
    (pad_decimal zero width n).length = width := by
  simp only [pad_decimal, List.length_append, List.length_replicate]
  omega

/-- Unless `num_iterations + 1` is a power of ten, the width is the number of
digits of `num_iterations`. -/
theorem name_width_eq_of_not_pow (n : Nat) (h : ∀ k, n + 1 ≠ 10 ^ k) :
    name_width n = (decimal n).length := by
  rw [decimal_length, name_width, Nat.add_comm]
  congr 1
  apply Nat.le_antisymm
  · apply Nat.le_log_of_pow_le (by decide)
    have h1 : 10 ^ Nat.log 10 (n + 1) ≤ n + 1 := Nat.pow_log_le_self 10 (by omega)
    have h2 := h (Nat.log 10 (n + 1))
    omega
  · exact Nat.log_mono_right (Nat.le_succ n)

/-- C7 (file-name width, amended): for every iteration count `N` below
`INT_MAX`, the width `ndigits` of line 109 is the number of decimal digits of
`N + 1`. It is at least the number of digits of `N` and at most one more, and
equal to it unless `N + 1` is a power of ten; every index from 0 to `N`
padded to it has exactly that many characters and reads back as the index.
With a project path without `%` and every file opening, the file of iteration
`i` is named `<viz_dir>/seed_00001/Scene.cellbin.<i zero-padded to ndigits>.dat`. -/
theorem file_name_width (P : Platform R G) (sim : MCellSimulation R)
    (proj_path : Option CString) (hN : sim.num_iterations < INT_MAX) :
    ∃ width, ndigits sim.num_iterations = some width
      ∧ width = (decimal (sim.num_iterations + 1)).length
      ∧ (decimal sim.num_iterations).length ≤ width
      ∧ width ≤ (decimal sim.num_iterations).length + 1
      ∧ ((∀ k, sim.num_iterations + 1 ≠ 10 ^ k) → width = (decimal sim.num_iterations).length)
      ∧ (∀ i, i ≤ sim.num_iterations →
          (pad_decimal true width i).length = width
          ∧ read_decimal (pad_decimal true width i) = i)
      ∧ (format_free proj_path →
          (∀ i, i ≤ sim.num_iterations →
            P.fopen (file_name (viz_dir_of proj_path) width i) = true) →
          ∃ r, run_simulation P sim proj_path = some r
            ∧ ∀ i, i ≤ sim.num_iterations →
                (r.files.get? i).map Prod.fst = some
                  (viz_dir_of proj_path ++ "/seed_00001/Scene.cellbin.".toList
                    ++ pad_decimal true width i ++ ".dat".toList)) := by
  refine ⟨name_width sim.num_iterations, ndigits_eq_some _ hN, name_width_eq_length _, ?_, ?_,
    name_width_eq_of_not_pow _, fun i hi => ⟨?_, ?_⟩, fun hpath hopen => ?_⟩
  · rw [name_width_eq_length]
    exact decimal_length_mono _ _ (Nat.le_succ _)
  · rw [decimal_length, name_width]
    have h10 : sim.num_iterations + 1 ≤ 10 * sim.num_iterations ∨ sim.num_iterations = 0 := by
      omega
    rcases h10 with h | h
    · have := Nat.log_mono_right (b := 10) h
      have h0 : sim.num_iterations ≠ 0 := by omega
      rw [Nat.mul_comm, Nat.log_mul_base (by decide) h0] at this
      omega
    · rw [h]
      simp
  · apply pad_decimal_length
    rw [name_width_eq_length]
    exact decimal_length_mono _ _ (by omega)
  · exact read_decimal_pad _ _
  · obtain ⟨r, hr, -, hfiles⟩ := run_simulation_files P sim proj_path hpath hN hopen
    refine ⟨r, hr, fun i hi => ?_⟩
    rw [hfiles i hi]
    rfl

/-- The example with `N = 1000`: the width is 4 and the file of iteration 7 is
`Scene.cellbin.0007.dat`. -/
theorem file_name_width_witness :
    1000 < INT_MAX
    ∧ ndigits 1000 = some 4
    ∧ ∃ r, run_simulation fixed_platform { example_sim with num_iterations := 1000 }
          example_path = some r
      ∧ (r.files.get? 7).map Prod.fst
          = some "/tmp/p/viz_data/seed_00001/Scene.cellbin.0007.dat".toList := by
  have hN : 1000 < INT_MAX := by decide
  obtain ⟨width, hw, hlen, -, -, -, -, hrun⟩ := file_name_width fixed_platform
    { example_sim with num_iterations := 1000 } example_path hN
  have h4 : width = 4 := hlen.trans (by decide)
  subst h4
  obtain ⟨r, hr, hname⟩ := hrun example_path_format_free (fun _ _ => rfl)
  refine ⟨hN, hw, r, hr, ?_⟩
  rw [hname 7 (by decide)]
  decide

/-- C7 fails for `N = 9`: the largest index 9 has one decimal digit, the width
computed is 2, and the file of iteration 3 is `Scene.cellbin.03.dat`. It fails
for `N = 2147483647` too: line 109 overflows and computes no width. -/
theorem file_name_width_counterexample :
    ndigits 9 = some 2 ∧ (decimal 9).length = 1
    ∧ ndigits 2147483647 = none
    ∧ ∃ r, run_simulation fixed_platform { example_sim with num_iterations := 9 }
          example_path = some r
      ∧ (r.files.get? 3).map Prod.fst
          = some "/tmp/p/viz_data/seed_00001/Scene.cellbin.03.dat".toList := by
  obtain ⟨r, hr, -, hfiles⟩ := run_simulation_files fixed_platform
    { example_sim with num_iterations := 9 } example_path example_path_format_free
    (by decide) (fun _ _ => rfl)
  refine ⟨?_, by decide, ndigits_eq_none _ (by decide), r, hr, ?_⟩
  · rw [ndigits_eq_some _ (by decide), name_width_eq_length]; decide
  · rw [hfiles 3 (by decide)]
    simp only [Option.map_some', name_width_eq_length]
    decide

/-- After `m[key] = v`, reading `m[key]` gives `v`. -/
theorem assoc_get_set_same {V : Type} (es : List (List Byte × V)) (key : List Byte) (v : V) :
    assoc_get (assoc_set es key v) key = some v := by
  induction es with
  | nil => simp [assoc_set, assoc_get]
  | cons e rest ih =>
    obtain ⟨k, w⟩ := e
    by_cases h : k = key
    · simp [assoc_set, assoc_get, h]
    · simp [assoc_set, assoc_get, h, ih]

/-- Assigning to one key changes the value of no other key. -/
theorem assoc_get_set_other {V : Type} (es : List (List Byte × V)) (key other : List Byte)
    (v : V) (h : other ≠ key) :
    assoc_get (assoc_set es key v) other = assoc_get es other := by
  induction es with
  | nil => simp [assoc_set, assoc_get, Ne.symm h]
  | cons e rest ih =>
    obtain ⟨k, w⟩ := e
    by_cases hk : k = key
    · subst hk
      simp [assoc_set, assoc_get, Ne.symm h]
    · by_cases ho : k = other
      · subst ho
        simp [assoc_set, assoc_get, hk]
      · simp [assoc_set, assoc_get, hk, ho, ih]

/-- Assigning to a key that is present leaves the keys and their order as they
are. -/
theorem assoc_set_keys_present {V : Type} (es : List (List Byte × V)) (key : List Byte) (v : V)
    (h : key ∈ es.map Prod.fst) :
    (assoc_set es key v).map Prod.fst = es.map Prod.fst := by
  induction es with
  | nil => simp at h
  | cons e rest ih =>
    obtain ⟨k, w⟩ := e
    by_cases hk : k = key
    · simp [assoc_set, hk]
    · have h' : key ∈ rest.map Prod.fst := by
        simp only [List.map_cons, List.mem_cons] at h
        rcases h with h | h
        · exact absurd h.symm hk
        · exact h
      simp [assoc_set, hk, ih h']

/-- Assigning to a key that is not present adds the key at the end. -/
theorem assoc_set_keys_absent {V : Type} (es : List (List Byte × V)) (key : List Byte) (v : V)
    (h : key ∉ es.map Prod.fst) :
    (assoc_set es key v).map Prod.fst = es.map Prod.fst ++ [key] := by
  induction es with
  | nil => simp [assoc_set]
  | cons e rest ih =>
    obtain ⟨k, w⟩ := e
    simp only [List.map_cons, List.mem_cons, not_or] at h
    have hk : k ≠ key := fun e => h.1 e.symm
    simp [assoc_set, hk, ih h.2]

/-- C10 (duplicate registration, amended): `add_molecule_species` called with
a species whose name is already in the registry does not fail; it stores the
new species under that name in place of the one stored before. Every other
name keeps its species, and the names, their order and their number stay as
they were, as do the object store and the release sites. -/
theorem duplicate_registration (sim : MCellSimulation R) (species : Nat)
    (hpresent : c_str (sim.objects species).name ∈ sim.molecule_species.keys) :
    get_molecule_species_by_name (add_molecule_species sim species)
        (c_str (sim.objects species).name) = some species
    ∧ (∀ mol_name, mol_name ≠ c_str (sim.objects species).name →
        get_molecule_species_by_name (add_molecule_species sim species) mol_name
          = get_molecule_species_by_name sim mol_name)
    ∧ (add_molecule_species sim species).molecule_species.keys = sim.molecule_species.keys
    ∧ (add_molecule_species sim species).molecule_species.get_num_items
        = sim.molecule_species.get_num_items
    ∧ (add_molecule_species sim species).objects = sim.objects
    ∧ (add_molecule_species sim species).molecule_release_sites = sim.molecule_release_sites := by
  have hkeys := assoc_set_keys_present sim.molecule_species.entries
    (c_str (sim.objects species).name) species hpresent
  refine ⟨assoc_get_set_same _ _ _, fun mol_name h => assoc_get_set_other _ _ _ _ h, hkeys,
    ?_, rfl, rfl⟩
  have := congrArg List.length hkeys
  simpa [MapStore.get_num_items, add_molecule_species, MapStore.set] using this

/-- Registering the second species object named "A" (address 2) in a registry
that holds "A": the name then gives address 2 and the registry still holds the
one name. -/
theorem duplicate_registration_witness :
    c_str (duplicate_sim.objects 2).name ∈ duplicate_sim.molecule_species.keys
    ∧ get_molecule_species_by_name (add_molecule_species duplicate_sim 2) [65] = some 2
    ∧ (add_molecule_species duplicate_sim 2).molecule_species.keys = [[65]] := by
  have hp : c_str (duplicate_sim.objects 2).name ∈ duplicate_sim.molecule_species.keys := by
    decide
  obtain ⟨h1, -, h3, -⟩ := duplicate_registration duplicate_sim 2 hp
  exact ⟨hp, h1, h3.trans (by decide)⟩

/-- C10 fails: the registry holds "A" for the object at address 0; after
`add_molecule_species` with the object at address 2, also named "A", the name
gives address 2, so the registry has changed and nothing has failed. -/
theorem duplicate_registration_counterexample :
    get_molecule_species_by_name duplicate_sim [65] = some 0
    ∧ (duplicate_sim.objects 2).name = [65]
    ∧ get_molecule_species_by_name (add_molecule_species duplicate_sim 2) [65] = some 2
    ∧ (add_molecule_species duplicate_sim 2).molecule_species.entries
        ≠ duplicate_sim.molecule_species.entries := by
  decide

/-! ## The lookup of a species by its name -/

/-- Registering a species leaves the object store as it is. -/
theorem register_all_objects (sim : MCellSimulation R) (added : List Nat) :
    (register_all sim added).objects = sim.objects := by
  unfold register_all
  induction added generalizing sim with
  | nil => rfl
  | cons p ps ih => rw [List.foldl_cons, ih]; rfl

/-- Registering one more species, taken last. -/
theorem register_all_append (sim : MCellSimulation R) (added : List Nat) (p : Nat) :
    register_all sim (added ++ [p]) = add_molecule_species (register_all sim added) p := by
  simp [register_all, List.foldl_append]

/-- The lookup of a name after a sequence of registrations: the species
registered last under the name, and what the lookup gave before when none was. -/
theorem lookup_register_all (sim : MCellSimulation R) (added : List Nat)
    (mol_name : List Byte) :
    get_molecule_species_by_name (register_all sim added) mol_name =
      match added.reverse.find? (fun p => decide (c_str (sim.objects p).name = mol_name)) with
      | some p => some p
      | none => get_molecule_species_by_name sim mol_name := by
  induction added using List.reverseRecOn with
  | nil => rfl
  | append_singleton ps p ih =>
    rw [register_all_append, List.reverse_append, List.reverse_singleton, List.singleton_append,
      List.find?_cons]
    by_cases h : c_str (sim.objects p).name = mol_name
    · simp only [h, decide_True]
      have := assoc_get_set_same (register_all sim ps).molecule_species.entries
        (c_str ((register_all sim ps).objects p).name) p
      rw [register_all_objects, h] at this
      simpa [get_molecule_species_by_name, add_molecule_species, MapStore.get, MapStore.set,
        register_all_objects, h] using this
    · simp only [h, decide_False]
      rw [← ih]
      have := assoc_get_set_other (register_all sim ps).molecule_species.entries
        (c_str ((register_all sim ps).objects p).name) mol_name p
        (by rw [register_all_objects]; exact fun e => h e.symm)
      simpa [get_molecule_species_by_name, add_molecule_species, MapStore.get, MapStore.set]
        using this

/-- Reading a key that no entry has gives NULL. -/
theorem assoc_get_absent {V : Type} (es : List (List Byte × V)) (key : List Byte)
    (h : key ∉ es.map Prod.fst) : assoc_get es key = none := by
  induction es with
  | nil => rfl
  | cons e rest ih =>
    obtain ⟨k, v⟩ := e
    simp only [List.map_cons, List.mem_cons, not_or] at h
    have hk : k ≠ key := fun e => h.1 e.symm
    simp [assoc_get, hk, ih h.2]

/-- C11 (lookup, amended): `get_molecule_species_by_name` returns the
species registered under a name when one was added with
`add_molecule_species`: after any sequence of registrations, the species
registered last under the name, and for a name none of them has, what the
lookup gave before. For a name that was never registered it does not fail:
it returns the NULL pointer (`none`) as its result. -/
theorem species_lookup (sim : MCellSimulation R) (added : List Nat) (species : Nat)
    (mol_name : List Byte) :
    get_molecule_species_by_name (add_molecule_species sim species)
        (c_str (sim.objects species).name) = some species
    ∧ get_molecule_species_by_name (register_all sim added) mol_name =
        (match added.reverse.find?
            (fun p => decide (c_str (sim.objects p).name = mol_name)) with
          | some p => some p
          | none => get_molecule_species_by_name sim mol_name)
    ∧ (mol_name ∉ sim.molecule_species.keys →
        get_molecule_species_by_name sim mol_name = none)
    ∧ (mol_name ∉ sim.molecule_species.keys →
        (∀ p ∈ added, c_str (sim.objects p).name ≠ mol_name) →
        get_molecule_species_by_name (register_all sim added) mol_name = none) := by
  refine ⟨assoc_get_set_same _ _ _, lookup_register_all sim added mol_name,
    fun h => assoc_get_absent _ _ h, fun h hall => ?_⟩
  rw [lookup_register_all]
  have hfind : added.reverse.find?
      (fun p => decide (c_str (sim.objects p).name = mol_name)) = none := by
    rw [List.find?_eq_none]
    intro p hp
    simpa using hall p (List.mem_reverse.mp hp)
  rw [hfind]
  exact assoc_get_absent _ _ h

/-- C11, the claim as stated fails: the registry of the simulation holds
the name "A" alone, the name "B" was never registered, and the lookup of "B"
returns the NULL pointer as its result. -/
theorem species_lookup_counterexample :
    duplicate_sim.molecule_species.keys = [[65]]
    ∧ [66] ∉ duplicate_sim.molecule_species.keys
    ∧ get_molecule_species_by_name duplicate_sim [65] = some 0
    ∧ get_molecule_species_by_name duplicate_sim [66] = none := by
  decide

/-! ## The count and the list of a species -/

/-- Releasing one molecule keeps the count of every object equal to the
length of its list. -/
theorem release_molecule_invariant (site : MCellReleaseSite R) (objs : Objects R) (p : Nat)
    (h : (objs p).num_instances = (objs p).instance_list.length) :
    (release_molecule site objs p).num_instances
      = (release_molecule site objs p).instance_list.length := by
  by_cases hp : p = site.molecule_species
  · subst hp
    rw [release_molecule_same]
    simp [h]
  · rw [release_molecule_other site objs p hp]
    exact h

/-- The inner release loop keeps the count of every object equal to the
length of its list, after every round. -/
theorem release_site_invariant (site : MCellReleaseSite R) (n : Nat) (objs : Objects R)
    (p : Nat) (h : (objs p).num_instances = (objs p).instance_list.length) :
    (release_site site n objs p).num_instances
      = (release_site site n objs p).instance_list.length := by
  induction n generalizing objs with
  | zero => exact h
  | succ n ih =>
    rw [release_site]
    exact ih _ (release_molecule_invariant site objs p h)

/-- The release loop keeps the count of every object equal to the length of
its list. -/
theorem release_loop_invariant (sites : List (MCellReleaseSite R)) (objs : Objects R)
    (p : Nat) (h : (objs p).num_instances = (objs p).instance_list.length) :
    (release_loop sites objs p).num_instances
      = (release_loop sites objs p).instance_list.length := by
  induction sites generalizing objs with
  | nil => exact h
  | cons site rest ih =>
    rw [release_loop]
    exact ih _ (release_site_invariant site site.quantity objs p h)

/-- C12 (registry invariant): if the count `num_instances` of a species
object equals the length of its `instance_list` before `run_simulation`, then
it does so after every molecule released, after every release site
processed, at the start and end of every iteration of the simulation loop and
in the result of a run that is defined (project path without `%`, iteration
count below `INT_MAX`, every file opening): releasing a molecule raises the
count and the length by one each, and an iteration changes neither. -/
theorem registry_invariant (P : Platform R G) (sim : MCellSimulation R)
    (proj_path : Option CString) (p : Nat)
    (h : (sim.objects p).num_instances = (sim.objects p).instance_list.length) :
    (∀ k (this_site : MCellReleaseSite R) n,
      (release_site this_site n
          (release_loop (sim.molecule_release_sites.take k) sim.objects) p).num_instances
        = (release_site this_site n
          (release_loop (sim.molecule_release_sites.take k) sim.objects) p).instance_list.length)
    ∧ (∀ k,
      (release_loop (sim.molecule_release_sites.take k) sim.objects p).num_instances
        = (release_loop (sim.molecule_release_sites.take k) sim.objects p).instance_list.length)
    ∧ (∀ i, (objects_at P sim i p).num_instances
        = (objects_at P sim i p).instance_list.length)
    ∧ (format_free proj_path → sim.num_iterations < INT_MAX →
        (∀ i, i ≤ sim.num_iterations →
          P.fopen (file_name (viz_dir_of proj_path) (name_width sim.num_iterations) i)
            = true) →
        ∃ r, run_simulation P sim proj_path = some r
          ∧ r.objects = objects_at P sim (sim.num_iterations + 1)
          ∧ (r.objects p).num_instances = (r.objects p).instance_list.length)
    ∧ (∀ (this_site : MCellReleaseSite R) (objs : Objects R),
        (release_molecule this_site objs this_site.molecule_species).num_instances
          = (objs this_site.molecule_species).num_instances + 1
        ∧ (release_molecule this_site objs this_site.molecule_species).instance_list.length
          = (objs this_site.molecule_species).instance_list.length + 1)
    ∧ (∀ i, (objects_at P sim (i + 1) p).num_instances = (objects_at P sim i p).num_instances
        ∧ (objects_at P sim (i + 1) p).instance_list.length
          = (objects_at P sim i p).instance_list.length) := by
  have hloop : ∀ i, (objects_at P sim i p).num_instances
      = (objects_at P sim i p).instance_list.length := by
    intro i
    have f := state_after_fields P sim.time_step sim.molecule_species.values i
      (release_loop sim.molecule_release_sites sim.objects, P.mrng 12345) p
    have r := release_loop_invariant sim.molecule_release_sites sim.objects p h
    simp only [objects_at, state_at]
    rw [f.2.2.2.1, f.2.2.2.2]
    exact r
  refine ⟨fun k this_site n => ?_, fun k => release_loop_invariant _ _ p h, hloop,
    fun hpath hN hopen => ?_, fun this_site objs => ?_, fun i => ?_⟩
  · exact release_site_invariant _ n _ p (release_loop_invariant _ _ p h)
  · refine ⟨_, run_simulation_eq P sim proj_path hpath hN hopen, rfl, ?_⟩
    exact hloop (sim.num_iterations + 1)
  · rw [release_molecule_same]
    exact ⟨rfl, rfl⟩
  · have f := objects_at_fields P sim i p
    have g := objects_at_fields P sim (i + 1) p
    exact ⟨g.2.2.2.1.trans f.2.2.2.1.symm, g.2.2.2.2.trans f.2.2.2.2.symm⟩

/-- The registry invariant at the example simulation: the species "A" at
address 0 starts with count 0 and no instance, has count 2 and two instances
after the release, and still has at the start of the third iteration. -/
theorem registry_invariant_witness :
    (example_sim.objects 0).num_instances = (example_sim.objects 0).instance_list.length
    ∧ (release_loop example_sim.molecule_release_sites example_sim.objects 0).num_instances = 2
    ∧ (release_loop example_sim.molecule_release_sites
        example_sim.objects 0).instance_list.length = 2
    ∧ (objects_at fixed_platform example_sim 2 0).num_instances
        = (objects_at fixed_platform example_sim 2 0).instance_list.length := by
  have h0 : (example_sim.objects 0).num_instances
      = (example_sim.objects 0).instance_list.length := by decide
  exact ⟨h0, by decide, by decide,
    (registry_invariant fixed_platform example_sim example_path 0 h0).2.2.1 2⟩

/-! ## The number of Gaussian draws -/

/-- The instances released into a species, latest first, are the instances
in the order of their creation, reversed. -/
theorem released_instances_eq_reverse (S : Nat) (sites : List (MCellReleaseSite R)) :
    released_instances S sites = (creation_order S sites).reverse := by
  unfold released_instances creation_order
  induction sites_of S sites with
  | nil => rfl
  | cons site rest ih =>
    simp only [List.reverse_cons, List.flatMap_append, List.flatMap_cons, List.flatMap_nil,
      List.append_nil, List.reverse_append, List.reverse_replicate, ih]

/-- The instances created by a list of sites followed by another: those of
the first list, then those of the second. -/
theorem creation_order_append (S : Nat) (earlier later : List (MCellReleaseSite R)) :
    creation_order S (earlier ++ later) = creation_order S earlier ++ creation_order S later := by
  simp only [creation_order, sites_of, List.filter_append, List.flatMap_append]

/-- C14 (particle-list order): a released molecule becomes the first of the
list of its species, so after the release step the list of a species is the
reverse of the order of creation, followed by what the list held before, and
the molecules of a later release site come before those of an earlier site
for the same species; the block of the species in a snapshot writes the
positions in this order, and the Gaussian draws of its visit go to the
molecules in this order, three for each; in a run over a registry that holds
no species object twice, every iteration moves the molecules of a registered
species place by place, so the list keeps this order in every snapshot. -/
theorem particle_list_order (P : Platform R G) (time_step : R)
    (sites earlier later : List (MCellReleaseSite R)) (this_site : MCellReleaseSite R)
    (objs : Objects R) (S : Nat) (rng : G) (sim : MCellSimulation R) :
    (release_molecule this_site objs this_site.molecule_species).instance_list
        = site_instance this_site :: (objs this_site.molecule_species).instance_list
    ∧ (release_loop sites objs S).instance_list
        = (creation_order S sites).reverse ++ (objs S).instance_list
    ∧ (release_loop (earlier ++ later) objs S).instance_list
        = (creation_order S later).reverse ++ (creation_order S earlier).reverse
            ++ (objs S).instance_list
    ∧ (simulate_species P time_step (release_loop sites objs S) rng).1
        = [toByte (objs S).name.length] ++ (objs S).name
            ++ [toByte ((objs S).type_code % 256).toNat]
            ++ int32_bytes (wrap_int32 (3 * ((release_loop sites objs S).num_instances : Int)))
            ++ ((creation_order S sites).reverse ++ (objs S).instance_list).flatMap
                (fun mol => float_bytes P mol.x ++ float_bytes P mol.y ++ float_bytes P mol.z)
    ∧ (simulate_species P time_step (release_loop sites objs S) rng).2.1.instance_list
        = ((creation_order S sites).reverse ++ (objs S).instance_list).enum.map (fun km =>
            { km.2 with
              x := displaced P (space_step P (objs S).diffusion_constant time_step) km.2.x
                (draw P rng (3 * km.1))
              y := displaced P (space_step P (objs S).diffusion_constant time_step) km.2.y
                (draw P rng (3 * km.1 + 1))
              z := displaced P (space_step P (objs S).diffusion_constant time_step) km.2.z
                (draw P rng (3 * km.1 + 2)) })
    ∧ (sim.molecule_species.values.Nodup → S ∈ sim.molecule_species.values → ∀ i,
        (objects_at P sim (i + 1) S).instance_list
          = (objects_at P sim i S).instance_list.enum.map (fun km =>
              { km.2 with
                x := displaced P
                  (space_step P (objects_at P sim i S).diffusion_constant sim.time_step) km.2.x
                  (draw P (rng_after P (state_at P sim i).2
                    (3 * particles_before (objects_at P sim i) sim.molecule_species.values S))
                    (3 * km.1))
                y := displaced P
                  (space_step P (objects_at P sim i S).diffusion_constant sim.time_step) km.2.y
                  (draw P (rng_after P (state_at P sim i).2
                    (3 * particles_before (objects_at P sim i) sim.molecule_species.values S))
                    (3 * km.1 + 1))
                z := displaced P
                  (space_step P (objects_at P sim i S).diffusion_constant sim.time_step) km.2.z
                  (draw P (rng_after P (state_at P sim i).2
                    (3 * particles_before (objects_at P sim i) sim.molecule_species.values S))
                    (3 * km.1 + 2)) })) := by
  have hloop : ∀ l : List (MCellReleaseSite R), (release_loop l objs S).instance_list
      = (creation_order S l).reverse ++ (objs S).instance_list := by
    intro l
    rw [release_loop_at, released_instances_eq_reverse]
  have hname : (release_loop sites objs S).name = (objs S).name := by rw [release_loop_at]
  have htype : (release_loop sites objs S).type_code = (objs S).type_code := by
    rw [release_loop_at]
  have hdc : (release_loop sites objs S).diffusion_constant = (objs S).diffusion_constant := by
    rw [release_loop_at]
  refine ⟨?_, hloop sites, ?_, ?_, ?_, fun hd hS i => ?_⟩
  · rw [release_molecule_same]
  · rw [hloop, creation_order_append, List.reverse_append, List.append_assoc]
  · rw [simulate_species_written, species_bytes, hloop, hname, htype]
  · have h0 : (simulate_species P time_step (release_loop sites objs S) rng).2.1.instance_list
        = (mol_instance_loop P
            (space_step P (release_loop sites objs S).diffusion_constant time_step)
            (release_loop sites objs S).instance_list rng).2.1 := rfl
    rw [h0, mol_instance_loop_moved, hloop, hdc]
  · have h1 : objects_at P sim (i + 1) S
        = (simulate_species P sim.time_step (objects_at P sim i S)
            (rng_after P (state_at P sim i).2
              (3 * particles_before (objects_at P sim i) sim.molecule_species.values S))).2.1 := by
      unfold objects_at
      rw [state_at_succ]
      exact species_pass_at P sim.time_step _ hd _ _ S hS
    rw [h1]
    exact mol_instance_loop_moved P _ _ _

/-- Two molecules of "A" released at (1, 2, 3) and then one at (7, 8, 9): the
molecule released last is the first of the list, and the first one written. -/
theorem particle_list_order_witness :
    (release_loop [site_A2, site_A1] example_objects 0).instance_list
      = [site_instance site_A1, site_instance site_A2, site_instance site_A2]
    ∧ creation_order 0 [site_A2, site_A1]
      = [site_instance site_A2, site_instance site_A2, site_instance site_A1]
    ∧ ((simulate_species fixed_platform (fixed_lit 1 (-6))
          (release_loop [site_A2, site_A1] example_objects 0) 12345).1.drop 7).take 12
      = float_bytes fixed_platform (fixed_lit 7 0) ++ float_bytes fixed_platform (fixed_lit 8 0)
          ++ float_bytes fixed_platform (fixed_lit 9 0) := by
  have H := particle_list_order fixed_platform (fixed_lit 1 (-6)) [site_A2, site_A1]
    [site_A2] [site_A1] site_A1 example_objects 0 12345 example_sim
  refine ⟨H.2.1.trans (by decide), by decide, ?_⟩
  rw [H.2.2.2.1]
  decide

/-! ## The byte for the length of a name -/

/-- The bytes of a species block: the length byte, the name, and what follows. -/
theorem simulate_species_name (P : Platform R G) (time_step : R)
    (this_species : MCellMoleculeSpecies R) (rng : G) :
    (simulate_species P time_step this_species rng).1 =
      toByte this_species.name.length ::
        (this_species.name ++
          ([toByte (this_species.type_code % 256).toNat]
            ++ int32_bytes (wrap_int32 (3 * (this_species.num_instances : Int)))
            ++ (mol_instance_loop P
                (space_step P this_species.diffusion_constant time_step)
                this_species.instance_list rng).1)) := by
  simp only [simulate_species, List.singleton_append, List.cons_append, List.append_assoc,
    List.nil_append]

/-- What a reader of the layout takes for the name of a block. -/
theorem read_name_block (name more : List Byte) :
    read_name (toByte name.length :: (name ++ more)) = name.take (name.length % 256) := by
  have hle : name.length % 256 ≤ name.length := Nat.mod_le _ _
  simp only [read_name, toByte]
  rw [List.take_append_of_le_length hle]

/-- C15 (name-length byte): a species block written by `run_simulation`
starts with the byte `name_len` and all bytes of the name after it; the byte
is the length of the name modulo 256, and it equals the length if and only
if the name is at most 255 bytes long; a reader of the layout, taking as
many name bytes as the byte says, gets the first (length modulo 256) bytes of
the name, and gets the name if and only if its length is below 256. -/
theorem name_length_byte (P : Platform R G) (time_step : R)
    (this_species : MCellMoleculeSpecies R) (rng : G) :
    (∃ more, (simulate_species P time_step this_species rng).1
        = toByte this_species.name.length :: (this_species.name ++ more))
    ∧ (toByte this_species.name.length).val = this_species.name.length % 256
    ∧ ((toByte this_species.name.length).val = this_species.name.length
        ↔ this_species.name.length ≤ 255)
    ∧ read_name (simulate_species P time_step this_species rng).1
        = this_species.name.take (this_species.name.length % 256)
    ∧ (read_name (simulate_species P time_step this_species rng).1 = this_species.name
        ↔ this_species.name.length < 256) := by
  have hread : read_name (simulate_species P time_step this_species rng).1
      = this_species.name.take (this_species.name.length % 256) := by
    rw [simulate_species_name, read_name_block]
  refine ⟨⟨_, simulate_species_name P time_step this_species rng⟩, rfl, ?_, hread, ?_⟩
  · show this_species.name.length % 256 = this_species.name.length ↔ _
    constructor
    · intro h
      have := Nat.mod_lt this_species.name.length (by decide : 256 > 0)
      omega
    · intro h
      exact Nat.mod_eq_of_lt (by omega)
  · rw [hread]
    constructor
    · intro h
      have hlen := congrArg List.length h
      rw [List.length_take] at hlen
      have := Nat.mod_lt this_species.name.length (by decide : 256 > 0)
      omega
    · intro h
      rw [Nat.mod_eq_of_lt h, List.take_length]

/-- The name "A" of one byte is read back; of the name of 256 bytes the
length byte is 0 and a reader takes the empty name. -/
theorem name_length_byte_witness :
    read_name (simulate_species fixed_platform (fixed_lit 1 (-6)) species_A 12345).1 = [65]
    ∧ (simulate_species fixed_platform (fixed_lit 1 (-6)) long_name_species 12345).1.head? 
        = some 0
    ∧ read_name (simulate_species fixed_platform (fixed_lit 1 (-6)) long_name_species 12345).1
        = [] := by
  have HA := name_length_byte fixed_platform (fixed_lit 1 (-6)) species_A 12345
  have HL := name_length_byte fixed_platform (fixed_lit 1 (-6)) long_name_species 12345
  have hlen : long_name_species.name.length = 256 := List.length_replicate _ _
  obtain ⟨more, hmore⟩ := HL.1
  refine ⟨HA.2.2.2.2.mpr (by decide), ?_, ?_⟩
  · rw [hmore, hlen]
    rfl
  · rw [HL.2.2.2.1, hlen]
    rfl

/-! ## Joined paths -/

/-- C16 (`join_path`): for non-NULL, non-empty `p1` and `p2` the result is
`p1`, the single character `/`, then `p2`, for every separator argument; for
`p2` NULL or empty and `p1` non-NULL it is a copy of `p1`; for `p1` NULL or
empty and `p2` non-empty it is a copy of `p2`; for both NULL it is NULL; and
no result depends on the separator argument. -/
theorem join_path_cases (p1 p2 : CString) (sep other_sep : Char) (q1 q2 : Option CString) :
    (p1 ≠ [] → p2 ≠ [] →
        join_path (some p1) sep (some p2) = some (some (p1 ++ '/' :: p2)))
    ∧ join_path (some p1) sep none = some (some p1)
    ∧ join_path (some p1) sep (some []) = some (some p1)
    ∧ (p2 ≠ [] → join_path none sep (some p2) = some (some p2))
    ∧ (p2 ≠ [] → join_path (some []) sep (some p2) = some (some p2))
    ∧ join_path none sep none = some none
    ∧ join_path q1 sep q2 = join_path q1 other_sep q2 := by
  refine ⟨fun h1 h2 => ?_, ?_, ?_, fun h2 => ?_, fun h2 => ?_, rfl, ?_⟩
  · cases p1 with
    | nil => exact absurd rfl h1
    | cons a s1 =>
      cases p2 with
      | nil => exact absurd rfl h2
      | cons c s2 => rfl
  · cases p1 <;> rfl
  · cases p1 <;> rfl
  · cases p2 with
    | nil => exact absurd rfl h2
    | cons c s2 => rfl
  · cases p2 with
    | nil => exact absurd rfl h2
    | cons c s2 => rfl
  · unfold join_path
    rfl

/-- The paths "a" and "b" give "a/b" also with the separator `:`; "a" with no
second path, and "b" with no first path, are handed back. -/
theorem join_path_cases_witness :
    join_path (some ['a']) ':' (some ['b']) = some (some ['a', '/', 'b'])
    ∧ join_path (some ['a']) '/' none = some (some ['a'])
    ∧ join_path none '/' (some ['b']) = some (some ['b']) := by
  have H := join_path_cases ['a'] ['b'] ':' '/' none none
  have H' := join_path_cases ['a'] ['b'] '/' '/' none none
  exact ⟨H.1 (by decide) (by decide), H'.2.1, H'.2.2.2.1 (by decide)⟩

end LibMCell
